import Mathlib

/-! # Ring buffer (`app/Src/ring_buffer.c`, `app/Inc/ring_buffer.h`)

A shallow embedding of the circular byte buffer and a verification of its
contract.

Conventions of the embedding.

* `size_t` values are natural numbers and every `size_t` addition and
  subtraction of the source is reduced modulo `2 ^ w`, where `w` is the width
  of `size_t` (`size_add`, `size_sub`).  The width is a parameter of every
  function that does `size_t` arithmetic.  The operator `%` of the source is
  `%` on natural numbers; they differ only for a zero divisor, which is
  undefined in C and which `ring_buffer_init` rules out.
* A pointer to bytes is `Option (Nat → uint8_t)`: `none` is `NULL`, `some m`
  is the memory found at the pointer, indexed by offset.  The storage region,
  the source array of `ring_buffer_write` and the destination arrays of
  `ring_buffer_read` and `ring_buffer_peek` are assumed not to overlap.
* A handle is `Option ring_buffer_t`: `none` is `NULL`, `some s` is a pointer
  to a control block whose fields are `s`.  A function that assigns through
  the handle returns the fields after the call.
* An output parameter `T* p` is `Option T`: `none` is `NULL`, `some v` is a
  pointer to a variable that holds `v`; the function returns what the
  variable holds afterwards.
* The flag `full` and the results of `ring_buffer_is_empty` and
  `ring_buffer_is_full` are `uint8_t` in the source and only ever hold `0` or
  `1`; they are `Bool` here.
-/

namespace RingBuffer

/-! ## Types -/

/-- Bytes, the type `uint8_t`. -/
abbrev uint8_t := Fin 256

/-- Pointers to bytes, `uint8_t*`: `none` is `NULL`. -/
abbrev byte_ptr := Option (Nat → uint8_t)

/-- Modelled from the spec: the enumerator
`RING_BUFFER_ERROR_INSUFFICIENT_DATA` only.  `ring_buffer_read` and
`ring_buffer_peek` return it, but the enumeration of `ring_buffer.h` does not
declare it; the spec lists it as "an insufficient-data condition distinct from
`NO_DATA`", so it is a sixth enumerator here.  The other five are the status
codes of `ring_buffer.h`, in the order of the enumeration
(`RING_BUFFER_OK = 0x00`). -/
inductive ring_buffer_status_t where
  /-- Buffer operation successful. -/
  | RING_BUFFER_OK
  /-- Buffer is full. -/
  | RING_BUFFER_FULL
  /-- Not enough space in buffer. -/
  | RING_BUFFER_NOT_ENOUGH_SPACE
  /-- Null pointer error. -/
  | RING_BUFFER_ERROR_NULL_PTR
  /-- No data available. -/
  | RING_BUFFER_ERROR_NO_DATA
  /-- Requested length exceeds the available data (not in `ring_buffer.h`). -/
  | RING_BUFFER_ERROR_INSUFFICIENT_DATA
  deriving DecidableEq

open ring_buffer_status_t

/-- The control block `struct ring_buffer_t`. -/
structure ring_buffer_t where
  /-- Pointer to the buffer memory. -/
  buffer : byte_ptr
  /-- Head pointer for the buffer. -/
  head : Nat
  /-- Tail pointer for the buffer. -/
  tail : Nat
  /-- Total capacity of the buffer. -/
  length : Nat
  /-- Buffer full flag. -/
  full : Bool

/-! ## `size_t` arithmetic -/

/-- Addition of two `size_t` values, `a + b` in a word of `w` bits. -/
def size_add (w a b : Nat) : Nat := (a + b) % 2 ^ w

/-- Subtraction of two `size_t` values, `a - b` in a word of `w` bits. -/
def size_sub (w a b : Nat) : Nat := (a + 2 ^ w - b % 2 ^ w) % 2 ^ w

/-! ## Storage access -/

/-- The assignment `handle->buffer[i] = v`. -/
def buffer_store (handle : ring_buffer_t) (i : Nat) (v : uint8_t) : ring_buffer_t :=
  { handle with buffer := handle.buffer.map (fun m => Function.update m i v) }

/-- The expression `handle->buffer[i]`.  Every caller has checked
`handle->buffer` against `NULL` before. -/
def buffer_load (handle : ring_buffer_t) (i : Nat) : uint8_t :=
  match handle.buffer with
  | some m => m i
  | none => 0

/-! ## Private functions -/

/-- Advance the head pointer by 1 position. -/
def advance_head_pointer (w : Nat) (handle : ring_buffer_t) : ring_buffer_t :=
  let h1 : ring_buffer_t :=
    if handle.full then { handle with tail := size_add w handle.tail 1 % handle.length }
    else handle
  let h2 : ring_buffer_t := { h1 with head := size_add w h1.head 1 % h1.length }
  { h2 with full := decide (h2.head = h2.tail) }

/-- Retreat the tail pointer by 1 position. -/
def retreat_tail_pointer (w : Nat) (handle : ring_buffer_t) : ring_buffer_t :=
  let h1 : ring_buffer_t := { handle with full := false }
  { h1 with tail := size_add w h1.tail 1 % h1.length }

/-- Number of occupied bytes. -/
def ring_buffer_calculate_available_data (w : Nat) (handle : ring_buffer_t) : Nat :=
  if handle.full then handle.length
  else if handle.head ≥ handle.tail then size_sub w handle.head handle.tail
  else size_sub w (size_add w handle.length handle.head) handle.tail

/-- Inline emptiness test. -/
def ring_buffer_is_empty_inline (handle : ring_buffer_t) : Bool :=
  !handle.full && decide (handle.tail = handle.head)

/-- Inline fullness test. -/
def ring_buffer_is_full_inline (handle : ring_buffer_t) : Bool :=
  handle.full

/-! ## Public functions -/

/-- Check if the ring buffer is empty. -/
def ring_buffer_is_empty (handle : Option ring_buffer_t) (is_empty : Option Bool) :
    ring_buffer_status_t × Option Bool :=
  match handle, is_empty with
  | some h, some _ => (RING_BUFFER_OK, some (ring_buffer_is_empty_inline h))
  | _, _ => (RING_BUFFER_ERROR_NULL_PTR, is_empty)

/-- Check if the ring buffer is full. -/
def ring_buffer_is_full (handle : Option ring_buffer_t) (is_full : Option Bool) :
    ring_buffer_status_t × Option Bool :=
  match handle, is_full with
  | some h, some _ => (RING_BUFFER_OK, some (ring_buffer_is_full_inline h))
  | _, _ => (RING_BUFFER_ERROR_NULL_PTR, is_full)

/-- Reset the ring buffer to its default state. -/
def ring_buffer_reset (handle : Option ring_buffer_t) :
    ring_buffer_status_t × Option ring_buffer_t :=
  match handle with
  | none => (RING_BUFFER_ERROR_NULL_PTR, none)
  | some h =>
    let h1 : ring_buffer_t := { h with head := 0 }
    let h2 : ring_buffer_t := { h1 with tail := 0 }
    let h3 : ring_buffer_t := { h2 with full := false }
    (RING_BUFFER_OK, some h3)

/-- Initialize a ring buffer instance.  The argument `malloc` is what
`malloc(sizeof(ring_buffer_t))` returns: `none` when the allocation fails,
otherwise a control block with indeterminate fields.  The result is the
returned handle and what `*status` holds afterwards. -/
def ring_buffer_init (buffer : byte_ptr) (size : Nat) (status : Option ring_buffer_status_t)
    (malloc : Option ring_buffer_t) : Option ring_buffer_t × Option ring_buffer_status_t :=
  if buffer.isNone || size == 0 then
    (none, status.map (fun _ => RING_BUFFER_ERROR_NULL_PTR))
  else
    match malloc with
    | none => (none, status.map (fun _ => RING_BUFFER_ERROR_NULL_PTR))
    | some blk =>
      let h1 : ring_buffer_t := { blk with buffer := buffer }
      let h2 : ring_buffer_t := { h1 with length := size }
      ((ring_buffer_reset (some h2)).2, status.map (fun _ => RING_BUFFER_OK))

/-- Deallocate the specified ring buffer.  The result is the status and the
control block that remains allocated (none after a successful call). -/
def ring_buffer_free (handle : Option ring_buffer_t) :
    ring_buffer_status_t × Option ring_buffer_t :=
  match handle with
  | none => (RING_BUFFER_ERROR_NULL_PTR, none)
  | some _ => (RING_BUFFER_OK, none)

/-- Get the amount of data available in the ring buffer. -/
def ring_buffer_get_data_length (w : Nat) (handle : Option ring_buffer_t) (length : Option Nat) :
    ring_buffer_status_t × Option Nat :=
  match handle, length with
  | some h, some _ => (RING_BUFFER_OK, some (ring_buffer_calculate_available_data w h))
  | _, _ => (RING_BUFFER_ERROR_NULL_PTR, length)

/-- Get the capacity of the ring buffer. -/
def ring_buffer_get_capacity (handle : Option ring_buffer_t) (capacity : Option Nat) :
    ring_buffer_status_t × Option Nat :=
  match handle, capacity with
  | some h, some _ => (RING_BUFFER_OK, some h.length)
  | _, _ => (RING_BUFFER_ERROR_NULL_PTR, capacity)

/-- Get the amount of free space available in the ring buffer. -/
def ring_buffer_get_free_space (w : Nat) (handle : Option ring_buffer_t)
    (free_space : Option Nat) : ring_buffer_status_t × Option Nat :=
  match handle, free_space with
  | some h, some _ =>
    (RING_BUFFER_OK, some (size_sub w h.length (ring_buffer_calculate_available_data w h)))
  | _, _ => (RING_BUFFER_ERROR_NULL_PTR, free_space)

/-- Write a byte into the ring buffer. -/
def ring_buffer_put_byte (w : Nat) (handle : Option ring_buffer_t) (data : uint8_t) :
    ring_buffer_status_t × Option ring_buffer_t :=
  match handle with
  | none => (RING_BUFFER_ERROR_NULL_PTR, none)
  | some h =>
    if h.buffer.isNone then (RING_BUFFER_ERROR_NULL_PTR, some h)
    else
      let free_space := size_sub w h.length (ring_buffer_calculate_available_data w h)
      if free_space = 0 then (RING_BUFFER_NOT_ENOUGH_SPACE, some h)
      else (RING_BUFFER_OK, some (advance_head_pointer w (buffer_store h h.head data)))

/-- Read a byte from the ring buffer. -/
def ring_buffer_get_byte (w : Nat) (handle : Option ring_buffer_t) (data : Option uint8_t) :
    ring_buffer_status_t × Option ring_buffer_t × Option uint8_t :=
  match handle, data with
  | some h, some _ =>
    if h.buffer.isNone then (RING_BUFFER_ERROR_NULL_PTR, some h, data)
    else if ring_buffer_is_empty_inline h then (RING_BUFFER_ERROR_NO_DATA, some h, data)
    else (RING_BUFFER_OK, some (retreat_tail_pointer w h), some (buffer_load h h.tail))
  | _, _ => (RING_BUFFER_ERROR_NULL_PTR, handle, data)

/-- Body of the loop of `ring_buffer_write` at index `i`. -/
def ring_buffer_write_body (w : Nat) (data : Nat → uint8_t) (handle : ring_buffer_t) (i : Nat) :
    ring_buffer_t :=
  advance_head_pointer w (buffer_store handle handle.head (data i))

/-- Write multiple bytes into the ring buffer. -/
def ring_buffer_write (w : Nat) (handle : Option ring_buffer_t) (data : byte_ptr) (length : Nat) :
    ring_buffer_status_t × Option ring_buffer_t :=
  match handle, data with
  | some h, some d =>
    if h.buffer.isNone then (RING_BUFFER_ERROR_NULL_PTR, some h)
    else
      let free_space := size_sub w h.length (ring_buffer_calculate_available_data w h)
      if free_space < length then (RING_BUFFER_NOT_ENOUGH_SPACE, some h)
      else (RING_BUFFER_OK, some ((List.range length).foldl (ring_buffer_write_body w d) h))
  | _, _ => (RING_BUFFER_ERROR_NULL_PTR, handle)

/-- Body of the loop of `ring_buffer_read` at index `i`, on the control block
and the destination array. -/
def ring_buffer_read_body (w : Nat) (st : ring_buffer_t × (Nat → uint8_t)) (i : Nat) :
    ring_buffer_t × (Nat → uint8_t) :=
  (retreat_tail_pointer w st.1, Function.update st.2 i (buffer_load st.1 st.1.tail))

/-- Read multiple bytes from the ring buffer. -/
def ring_buffer_read (w : Nat) (handle : Option ring_buffer_t) (data : byte_ptr) (length : Nat) :
    ring_buffer_status_t × Option ring_buffer_t × byte_ptr :=
  match handle, data with
  | some h, some d =>
    if h.buffer.isNone then (RING_BUFFER_ERROR_NULL_PTR, some h, data)
    else
      let available_data := ring_buffer_calculate_available_data w h
      if available_data < length then (RING_BUFFER_ERROR_INSUFFICIENT_DATA, some h, data)
      else
        let st := (List.range length).foldl (ring_buffer_read_body w) (h, d)
        (RING_BUFFER_OK, some st.1, some st.2)
  | _, _ => (RING_BUFFER_ERROR_NULL_PTR, handle, data)

/-- Body of the loop of `ring_buffer_peek` at index `i`, on the local cursor
`temp_tail` and the destination array. -/
def ring_buffer_peek_body (w : Nat) (handle : ring_buffer_t) (st : Nat × (Nat → uint8_t))
    (i : Nat) : Nat × (Nat → uint8_t) :=
  (size_add w st.1 1 % handle.length, Function.update st.2 i (buffer_load handle st.1))

/-- Peek data in the ring buffer without removing it. -/
def ring_buffer_peek (w : Nat) (handle : Option ring_buffer_t) (data : byte_ptr) (length : Nat) :
    ring_buffer_status_t × Option ring_buffer_t × byte_ptr :=
  match handle, data with
  | some h, some d =>
    if h.buffer.isNone then (RING_BUFFER_ERROR_NULL_PTR, some h, data)
    else
      let available_data := ring_buffer_calculate_available_data w h
      if available_data < length then (RING_BUFFER_ERROR_INSUFFICIENT_DATA, some h, data)
      else
        let st := (List.range length).foldl (ring_buffer_peek_body w h) (h.tail, d)
        (RING_BUFFER_OK, some h, some st.2)
  | _, _ => (RING_BUFFER_ERROR_NULL_PTR, handle, data)

/-! ## Driver loops and call sequences -/

/-- The driver loop of `main.c` (lines 109 to 116): one `ring_buffer_put_byte`
per byte of `bytes`, in order.  The result is the list of returned statuses
and the control block after the last call. -/
def put_byte_seq (w : Nat) (handle : Option ring_buffer_t) (bytes : List uint8_t) :
    List ring_buffer_status_t × Option ring_buffer_t :=
  bytes.foldl
    (fun acc b => (acc.1 ++ [(ring_buffer_put_byte w acc.2 b).1], (ring_buffer_put_byte w acc.2 b).2))
    ([], handle)

/-- A call of one of the operations that assign through the handle or copy
bytes, with its arguments other than the handle. -/
inductive ring_buffer_call where
  | reset
  | put_byte (data : uint8_t)
  | get_byte (data : Option uint8_t)
  | write (data : byte_ptr) (length : Nat)
  | read (data : byte_ptr) (length : Nat)
  | peek (data : byte_ptr) (length : Nat)

/-- The control block after the call `c` on `handle`. -/
def ring_buffer_call.apply (w : Nat) (c : ring_buffer_call) (handle : Option ring_buffer_t) :
    Option ring_buffer_t :=
  match c with
  | .reset => (ring_buffer_reset handle).2
  | .put_byte b => (ring_buffer_put_byte w handle b).2
  | .get_byte o => (ring_buffer_get_byte w handle o).2.1
  | .write d n => (ring_buffer_write w handle d n).2
  | .read d n => (ring_buffer_read w handle d n).2.1
  | .peek d n => (ring_buffer_peek w handle d n).2.1

/-- The bytes the call `c` on `handle` enqueues: those given to a
`ring_buffer_put_byte` or `ring_buffer_write` that returns `RING_BUFFER_OK`. -/
def ring_buffer_call.enqueued (w : Nat) (c : ring_buffer_call) (handle : Option ring_buffer_t) :
    List uint8_t :=
  match c with
  | .put_byte b =>
    if (ring_buffer_put_byte w handle b).1 = RING_BUFFER_OK then [b] else []
  | .write (some d) n =>
    if (ring_buffer_write w handle (some d) n).1 = RING_BUFFER_OK then (List.range n).map d
    else []
  | _ => []

/-- The bytes the call `c` on `handle` dequeues: those stored in the
destination by a `ring_buffer_get_byte` or `ring_buffer_read` that returns
`RING_BUFFER_OK`. -/
def ring_buffer_call.dequeued (w : Nat) (c : ring_buffer_call) (handle : Option ring_buffer_t) :
    List uint8_t :=
  match c with
  | .get_byte o =>
    match ring_buffer_get_byte w handle o with
    | (RING_BUFFER_OK, _, some b) => [b]
    | _ => []
  | .read d n =>
    match ring_buffer_read w handle d n with
    | (RING_BUFFER_OK, _, some out) => (List.range n).map out
    | _ => []
  | _ => []

/-- The control block after the calls `calls`, made in order on `handle`. -/
def ring_buffer_run (w : Nat) (calls : List ring_buffer_call) (handle : Option ring_buffer_t) :
    Option ring_buffer_t :=
  calls.foldl (fun h c => c.apply w h) handle

/-- All bytes enqueued by the calls `calls`, made in order on `handle`. -/
def ring_buffer_enqueued (w : Nat) :
    List ring_buffer_call → Option ring_buffer_t → List uint8_t
  | [], _ => []
  | c :: cs, handle => c.enqueued w handle ++ ring_buffer_enqueued w cs (c.apply w handle)

/-- All bytes dequeued by the calls `calls`, made in order on `handle`. -/
def ring_buffer_dequeued (w : Nat) :
    List ring_buffer_call → Option ring_buffer_t → List uint8_t
  | [], _ => []
  | c :: cs, handle => c.dequeued w handle ++ ring_buffer_dequeued w cs (c.apply w handle)

/-- Whether the call is a `ring_buffer_reset`. -/
def ring_buffer_call.is_reset : ring_buffer_call → Bool
  | .reset => true
  | _ => false

/-- Consecutive single-byte dequeues: `n` calls of `ring_buffer_get_byte`, each
into a variable that holds `0` before the call (as `byte` in `main.c`, line
97).  The result is the list of returned statuses, the control block after
the last call and what the variable holds after each call, in order. -/
def get_byte_seq (w : Nat) (handle : Option ring_buffer_t) (n : Nat) :
    List ring_buffer_status_t × Option ring_buffer_t × List uint8_t :=
  (List.range n).foldl
    (fun acc _ =>
      (acc.1 ++ [(ring_buffer_get_byte w acc.2.1 (some 0)).1],
        (ring_buffer_get_byte w acc.2.1 (some 0)).2.1,
        acc.2.2 ++ ((ring_buffer_get_byte w acc.2.1 (some 0)).2.2).toList))
    ([], handle, [])

/-! ## Specification vocabulary -/

/-- Well-formed state: `capacity > 0`, `head < capacity`, `tail < capacity`,
and `full` implies `head == tail`. -/
def WellFormed (s : ring_buffer_t) : Prop :=
  0 < s.length ∧ s.head < s.length ∧ s.tail < s.length ∧ (s.full = true → s.head = s.tail)

/-- The control block is one `ring_buffer_init` can have built on a machine
with `size_t` of `w` bits: the storage pointer is not `NULL` and the capacity
is a `size_t` value. -/
def Backed (w : Nat) (s : ring_buffer_t) : Prop :=
  s.buffer.isSome = true ∧ s.length < 2 ^ w

instance instDecidableWellFormed (s : ring_buffer_t) : Decidable (WellFormed s) := by
  unfold WellFormed; infer_instance

instance instDecidableBacked (w : Nat) (s : ring_buffer_t) : Decidable (Backed w s) := by
  unfold Backed; infer_instance

/-- The value `ring_buffer_get_data_length` stores for the control block `s`. -/
def data_length (w : Nat) (s : ring_buffer_t) : Nat :=
  ring_buffer_calculate_available_data w s

/-- The value `ring_buffer_get_free_space` stores for the control block `s`,
which is also the local `free_space` of `ring_buffer_put_byte` and
`ring_buffer_write`. -/
def free_space (w : Nat) (s : ring_buffer_t) : Nat :=
  size_sub w s.length (ring_buffer_calculate_available_data w s)

/-- The occupied bytes in order: the `data_length` bytes `storage[tail]`,
`storage[(tail + 1) mod capacity]`, and so on. -/
def contents (w : Nat) (s : ring_buffer_t) : List uint8_t :=
  (List.range (data_length w s)).map (fun i => buffer_load s ((s.tail + i) % s.length))

/-- The first `n` bytes of the array `d`. -/
def bytes_of (d : Nat → uint8_t) (n : Nat) : List uint8_t :=
  (List.range n).map d

/-- An array that starts with the bytes `l`. -/
def array_of (l : List uint8_t) : Nat → uint8_t :=
  fun i => l.getD i 0

/-- The index bounds of a control block of capacity `size`. -/
def InBounds (size : Nat) (s : ring_buffer_t) : Prop :=
  0 < s.length ∧ s.head < s.length ∧ s.tail < s.length ∧ s.length = size

instance instDecidableInBounds (size : Nat) (s : ring_buffer_t) : Decidable (InBounds size s) := by
  unfold InBounds; infer_instance

/-! ## Arithmetic of indices -/

theorem size_add_of_lt {w a b : Nat} (h : a + b < 2 ^ w) : size_add w a b = a + b := by
  unfold size_add; exact Nat.mod_eq_of_lt h

theorem size_sub_of_le {w a b : Nat} (hba : b ≤ a) (ha : a < 2 ^ w) : size_sub w a b = a - b := by
  unfold size_sub
  have hb : b % 2 ^ w = b := Nat.mod_eq_of_lt (by omega)
  rw [hb]
  have : a + 2 ^ w - b = (a - b) + 2 ^ w := by omega
  rw [this, Nat.add_mod_right]
  exact Nat.mod_eq_of_lt (by omega)

theorem size_sub_wrap {w len h t : Nat} (ht : t < len) (hh : h < t) (hl : len < 2 ^ w) :
    size_sub w (size_add w len h) t = len + h - t := by
  unfold size_sub size_add
  have hb : t % 2 ^ w = t := Nat.mod_eq_of_lt (by omega)
  rw [hb]
  by_cases hc : len + h < 2 ^ w
  · rw [Nat.mod_eq_of_lt hc]
    have : len + h + 2 ^ w - t = (len + h - t) + 2 ^ w := by omega
    rw [this, Nat.add_mod_right]
    exact Nat.mod_eq_of_lt (by omega)
  · have h1 : (len + h) % 2 ^ w = len + h - 2 ^ w := by
      rw [Nat.mod_eq_sub_mod (by omega)]
      exact Nat.mod_eq_of_lt (by omega)
    rw [h1]
    have : len + h - 2 ^ w + 2 ^ w - t = len + h - t := by omega
    rw [this]
    exact Nat.mod_eq_of_lt (by omega)

theorem calculate_cases {w : Nat} {s : ring_buffer_t} (hwf : WellFormed s)
    (hl : s.length < 2 ^ w) :
    (s.full = true ∧ ring_buffer_calculate_available_data w s = s.length) ∨
    (s.full = false ∧ s.tail ≤ s.head ∧
      ring_buffer_calculate_available_data w s = s.head - s.tail) ∨
    (s.full = false ∧ s.head < s.tail ∧
      ring_buffer_calculate_available_data w s = s.length + s.head - s.tail) := by
  obtain ⟨h0, hh, ht, hf⟩ := hwf
  unfold ring_buffer_calculate_available_data
  cases hfull : s.full with
  | true => left; simp
  | false =>
    right
    by_cases hle : s.tail ≤ s.head
    · left
      refine ⟨rfl, hle, ?_⟩
      simp only [Bool.false_eq_true, if_false, ge_iff_le, hle, if_true]
      exact size_sub_of_le hle (by omega)
    · right
      refine ⟨rfl, by omega, ?_⟩
      simp only [Bool.false_eq_true, if_false, ge_iff_le, hle]
      exact size_sub_wrap ht (by omega) hl

theorem succ_mod_eq {x len : Nat} (hx : x < len) :
    (x + 1) % len = if x + 1 = len then 0 else x + 1 := by
  by_cases h : x + 1 = len
  · simp [h]
  · simp only [h, if_false]
    exact Nat.mod_eq_of_lt (by omega)

theorem size_succ_mod {w x len : Nat} (hx : x < len) (hl : len < 2 ^ w) :
    size_add w x 1 % len = (x + 1) % len := by
  rw [size_add_of_lt (by omega)]

theorem add_mod_inj {t i j len : Nat} (hi : i < len) (hj : j < len)
    (h : (t + i) % len = (t + j) % len) : i = j := by
  have h1 : i % len = j % len := Nat.ModEq.add_left_cancel' t h
  rwa [Nat.mod_eq_of_lt hi, Nat.mod_eq_of_lt hj] at h1

/-- In a well-formed state the head is the tail advanced by the number of
occupied bytes. -/
theorem head_eq {w : Nat} {s : ring_buffer_t} (hwf : WellFormed s) (hl : s.length < 2 ^ w) :
    s.head = (s.tail + ring_buffer_calculate_available_data w s) % s.length := by
  have hwf2 := hwf
  obtain ⟨h0, hh, ht, hf⟩ := hwf2
  rcases calculate_cases hwf hl with ⟨h1, hc⟩ | ⟨h1, hle, hc⟩ | ⟨h1, hlt, hc⟩
  · rw [hc, Nat.add_mod_right, Nat.mod_eq_of_lt ht]; exact hf h1
  · rw [hc, Nat.add_sub_cancel' hle, Nat.mod_eq_of_lt hh]
  · have : s.tail + (s.length + s.head - s.tail) = s.head + s.length := by omega
    rw [hc, this, Nat.add_mod_right, Nat.mod_eq_of_lt hh]

theorem calculate_le {w : Nat} {s : ring_buffer_t} (hwf : WellFormed s) (hl : s.length < 2 ^ w) :
    ring_buffer_calculate_available_data w s ≤ s.length := by
  have hwf2 := hwf
  obtain ⟨h0, hh, ht, hf⟩ := hwf2
  rcases calculate_cases hwf hl with ⟨h1, hc⟩ | ⟨h1, hle, hc⟩ | ⟨h1, hlt, hc⟩ <;> omega

theorem full_iff {w : Nat} {s : ring_buffer_t} (hwf : WellFormed s) (hl : s.length < 2 ^ w) :
    s.full = true ↔ ring_buffer_calculate_available_data w s = s.length := by
  have hwf2 := hwf
  obtain ⟨h0, hh, ht, hf⟩ := hwf2
  rcases calculate_cases hwf hl with ⟨h1, hc⟩ | ⟨h1, hle, hc⟩ | ⟨h1, hlt, hc⟩
  · simp [h1, hc]
  · simp only [h1, Bool.false_eq_true, false_iff]; omega
  · simp only [h1, Bool.false_eq_true, false_iff]; omega

theorem empty_iff {w : Nat} {s : ring_buffer_t} (hwf : WellFormed s) (hl : s.length < 2 ^ w) :
    ring_buffer_is_empty_inline s = true ↔ ring_buffer_calculate_available_data w s = 0 := by
  have hwf2 := hwf
  obtain ⟨h0, hh, ht, hf⟩ := hwf2
  unfold ring_buffer_is_empty_inline
  rcases calculate_cases hwf hl with ⟨h1, hc⟩ | ⟨h1, hle, hc⟩ | ⟨h1, hlt, hc⟩
  · simp [h1, hc]; omega
  · simp [h1, hc]; omega
  · simp [h1, hc]; omega

theorem free_space_eq {w : Nat} {s : ring_buffer_t} (hwf : WellFormed s) (hl : s.length < 2 ^ w) :
    size_sub w s.length (ring_buffer_calculate_available_data w s) =
      s.length - ring_buffer_calculate_available_data w s :=
  size_sub_of_le (calculate_le hwf hl) hl

theorem write_body_eq {w : Nat} {s : ring_buffer_t} (hwf : WellFormed s) (hl : s.length < 2 ^ w)
    (hfull : s.full = false) (b : uint8_t) :
    advance_head_pointer w (buffer_store s s.head b) =
      { buffer := s.buffer.map (fun m => Function.update m s.head b),
        head := (s.head + 1) % s.length,
        tail := s.tail,
        length := s.length,
        full := decide ((s.head + 1) % s.length = s.tail) } := by
  obtain ⟨h0, hh, ht, hf⟩ := hwf
  simp [advance_head_pointer, buffer_store, hfull, size_succ_mod hh hl]

theorem retreat_eq {w : Nat} {s : ring_buffer_t} (hwf : WellFormed s) (hl : s.length < 2 ^ w) :
    retreat_tail_pointer w s =
      { buffer := s.buffer, head := s.head, tail := (s.tail + 1) % s.length,
        length := s.length, full := false } := by
  obtain ⟨h0, hh, ht, hf⟩ := hwf
  simp [retreat_tail_pointer, size_succ_mod ht hl]

theorem write_body_wf {w : Nat} {s : ring_buffer_t} (hwf : WellFormed s) (hl : s.length < 2 ^ w)
    (hfull : s.full = false) (b : uint8_t) :
    WellFormed (advance_head_pointer w (buffer_store s s.head b)) := by
  rw [write_body_eq hwf hl hfull]
  obtain ⟨h0, hh, ht, hf⟩ := hwf
  refine ⟨h0, Nat.mod_lt _ h0, ht, ?_⟩
  intro h; simpa using h

theorem retreat_wf {w : Nat} {s : ring_buffer_t} (hwf : WellFormed s) (hl : s.length < 2 ^ w) :
    WellFormed (retreat_tail_pointer w s) := by
  rw [retreat_eq hwf hl]
  obtain ⟨h0, hh, ht, hf⟩ := hwf
  exact ⟨h0, hh, Nat.mod_lt _ h0, by intro h; simp at h⟩

theorem write_body_calculate {w : Nat} {s : ring_buffer_t} (hwf : WellFormed s)
    (hl : s.length < 2 ^ w) (hfull : s.full = false) (b : uint8_t) :
    ring_buffer_calculate_available_data w (advance_head_pointer w (buffer_store s s.head b)) =
      ring_buffer_calculate_available_data w s + 1 := by
  have hwf1 := write_body_wf hwf hl hfull b
  have hl1 : (advance_head_pointer w (buffer_store s s.head b)).length < 2 ^ w := by
    rw [write_body_eq hwf hl hfull]; exact hl
  have c1 := calculate_cases hwf1 hl1
  have c0 := calculate_cases hwf hl
  rw [write_body_eq hwf hl hfull] at c1 ⊢
  obtain ⟨h0, hh, ht, hf⟩ := hwf
  have hm := succ_mod_eq hh
  simp only [decide_eq_true_eq, decide_eq_false_iff_not] at c1
  rcases c0 with ⟨h1, hc⟩ | ⟨h1, hle, hc⟩ | ⟨h1, hlt, hc⟩
  · simp [hfull] at h1
  · rcases c1 with ⟨g1, gc⟩ | ⟨g1, gle, gc⟩ | ⟨g1, glt, gc⟩
    · rw [gc, hc]; split_ifs at hm <;> omega
    · rw [gc, hc]; split_ifs at hm <;> omega
    · rw [gc, hc]; split_ifs at hm <;> omega
  · rcases c1 with ⟨g1, gc⟩ | ⟨g1, gle, gc⟩ | ⟨g1, glt, gc⟩
    · rw [gc, hc]; split_ifs at hm <;> omega
    · rw [gc, hc]; split_ifs at hm <;> omega
    · rw [gc, hc]; split_ifs at hm <;> omega

theorem retreat_calculate {w : Nat} {s : ring_buffer_t} (hwf : WellFormed s)
    (hl : s.length < 2 ^ w) (hne : ring_buffer_calculate_available_data w s ≠ 0) :
    ring_buffer_calculate_available_data w (retreat_tail_pointer w s) + 1 =
      ring_buffer_calculate_available_data w s := by
  have hwf1 := retreat_wf hwf hl
  have hl1 : (retreat_tail_pointer w s).length < 2 ^ w := by
    rw [retreat_eq hwf hl]; exact hl
  have c1 := calculate_cases hwf1 hl1
  have c0 := calculate_cases hwf hl
  rw [retreat_eq hwf hl] at c1 ⊢
  obtain ⟨h0, hh, ht, hf⟩ := hwf
  have hm := succ_mod_eq ht
  simp only at c1
  rcases c0 with ⟨h1, hc⟩ | ⟨h1, hle, hc⟩ | ⟨h1, hlt, hc⟩
  · have := hf h1
    rcases c1 with ⟨g1, gc⟩ | ⟨g1, gle, gc⟩ | ⟨g1, glt, gc⟩
    · simp at g1
    · rw [gc, hc]; split_ifs at hm <;> omega
    · rw [gc, hc]; split_ifs at hm <;> omega
  · rw [hc] at hne
    rcases c1 with ⟨g1, gc⟩ | ⟨g1, gle, gc⟩ | ⟨g1, glt, gc⟩
    · simp at g1
    · rw [gc, hc]; split_ifs at hm <;> omega
    · rw [gc, hc]; split_ifs at hm <;> omega
  · rcases c1 with ⟨g1, gc⟩ | ⟨g1, gle, gc⟩ | ⟨g1, glt, gc⟩
    · simp at g1
    · rw [gc, hc]; split_ifs at hm <;> omega
    · rw [gc, hc]; split_ifs at hm <;> omega

theorem write_body_contents {w : Nat} {s : ring_buffer_t} (hwf : WellFormed s)
    (hb : Backed w s) (hfull : s.full = false) (b : uint8_t) :
    contents w (advance_head_pointer w (buffer_store s s.head b)) = contents w s ++ [b] := by
  obtain ⟨hsome, hl⟩ := hb
  have hcalc := write_body_calculate hwf hl hfull b
  have hhead := head_eq hwf hl
  have hle := calculate_le hwf hl
  have hnf : ring_buffer_calculate_available_data w s ≠ s.length := by
    intro h; have := (full_iff hwf hl).2 h; simp [hfull] at this
  obtain ⟨m, hm⟩ := Option.isSome_iff_exists.1 hsome
  unfold contents data_length
  rw [hcalc, List.range_succ, List.map_append]
  rw [write_body_eq hwf hl hfull]
  simp only [buffer_load, hm, Option.map_some', List.map_cons, List.map_nil]
  congr 1
  · apply List.map_congr_left
    intro i hi
    rw [List.mem_range] at hi
    apply Function.update_noteq
    intro h
    rw [hhead] at h
    have := add_mod_inj (by omega) (by omega) h
    omega
  · rw [← hhead]; simp

theorem retreat_contents {w : Nat} {s : ring_buffer_t} (hwf : WellFormed s)
    (hl : s.length < 2 ^ w) (hne : ring_buffer_calculate_available_data w s ≠ 0) :
    contents w s = buffer_load s s.tail :: contents w (retreat_tail_pointer w s) := by
  have hcalc := retreat_calculate hwf hl hne
  have ht : s.tail < s.length := hwf.2.2.1
  unfold contents data_length
  rw [← hcalc, List.range_succ_eq_map, List.map_cons, List.map_map]
  rw [retreat_eq hwf hl]
  simp only [buffer_load, Nat.add_zero, Nat.mod_eq_of_lt ht]
  congr 1
  apply List.map_congr_left
  intro i _
  simp only [Function.comp, Nat.mod_add_mod]
  rw [Nat.add_assoc, Nat.add_comm 1 i]

theorem write_body_backed {w : Nat} {s : ring_buffer_t} (hwf : WellFormed s)
    (hb : Backed w s) (hfull : s.full = false) (b : uint8_t) :
    Backed w (advance_head_pointer w (buffer_store s s.head b)) := by
  rw [write_body_eq hwf hb.2 hfull]
  obtain ⟨hsome, hl⟩ := hb
  obtain ⟨m, hm⟩ := Option.isSome_iff_exists.1 hsome
  exact ⟨by simp [hm], hl⟩

theorem not_full_of_lt {w : Nat} {s : ring_buffer_t} (hwf : WellFormed s)
    (hl : s.length < 2 ^ w) (h : ring_buffer_calculate_available_data w s < s.length) :
    s.full = false := by
  cases hf : s.full with
  | false => rfl
  | true => have := (full_iff hwf hl).1 hf; omega

/-- Invariant of the loop of `ring_buffer_write` after `n` iterations. -/
theorem write_loop_spec {w : Nat} (d : Nat → uint8_t) {s : ring_buffer_t} (hwf : WellFormed s)
    (hb : Backed w s) (n : Nat)
    (hn : ring_buffer_calculate_available_data w s + n ≤ s.length) :
    WellFormed ((List.range n).foldl (ring_buffer_write_body w d) s) ∧
    Backed w ((List.range n).foldl (ring_buffer_write_body w d) s) ∧
    ring_buffer_calculate_available_data w ((List.range n).foldl (ring_buffer_write_body w d) s)
      = ring_buffer_calculate_available_data w s + n ∧
    contents w ((List.range n).foldl (ring_buffer_write_body w d) s)
      = contents w s ++ (List.range n).map d ∧
    ((List.range n).foldl (ring_buffer_write_body w d) s).tail = s.tail ∧
    ((List.range n).foldl (ring_buffer_write_body w d) s).length = s.length := by
  induction n with
  | zero => simp [hwf, hb]
  | succ k ih =>
    obtain ⟨iwf, ib, ic, ict, itl, iln⟩ := ih (by omega)
    have hnf := not_full_of_lt iwf ib.2 (by rw [ic, iln]; omega)
    rw [List.range_succ, List.foldl_append, List.foldl_cons, List.foldl_nil]
    generalize (List.range k).foldl (ring_buffer_write_body w d) s = st at *
    unfold ring_buffer_write_body
    refine ⟨write_body_wf iwf ib.2 hnf _, write_body_backed iwf ib hnf _, ?_, ?_, ?_, ?_⟩
    · rw [write_body_calculate iwf ib.2 hnf, ic]; omega
    · rw [write_body_contents iwf ib hnf, ict, List.map_append]; simp
    · rw [write_body_eq iwf ib.2 hnf]; exact itl
    · rw [write_body_eq iwf ib.2 hnf]; exact iln

/-- Invariant of the loop of `ring_buffer_read` after `n` iterations. -/
theorem read_loop_spec {w : Nat} (d : Nat → uint8_t) {s : ring_buffer_t} (hwf : WellFormed s)
    (hl : s.length < 2 ^ w) (n : Nat) (hn : n ≤ ring_buffer_calculate_available_data w s) :
    WellFormed ((List.range n).foldl (ring_buffer_read_body w) (s, d)).1 ∧
    ring_buffer_calculate_available_data w
      ((List.range n).foldl (ring_buffer_read_body w) (s, d)).1 + n
      = ring_buffer_calculate_available_data w s ∧
    contents w s = (List.range n).map ((List.range n).foldl (ring_buffer_read_body w) (s, d)).2
      ++ contents w ((List.range n).foldl (ring_buffer_read_body w) (s, d)).1 ∧
    ((List.range n).foldl (ring_buffer_read_body w) (s, d)).1.head = s.head ∧
    ((List.range n).foldl (ring_buffer_read_body w) (s, d)).1.length = s.length ∧
    ((List.range n).foldl (ring_buffer_read_body w) (s, d)).1.buffer = s.buffer := by
  induction n with
  | zero => simp [hwf]
  | succ k ih =>
    obtain ⟨iwf, ic, ict, ihd, iln, ibf⟩ := ih (by omega)
    have il : ((List.range k).foldl (ring_buffer_read_body w) (s, d)).1.length < 2 ^ w := by
      rw [iln]; exact hl
    have hne : ring_buffer_calculate_available_data w
        ((List.range k).foldl (ring_buffer_read_body w) (s, d)).1 ≠ 0 := by omega
    rw [List.range_succ, List.foldl_append, List.foldl_cons, List.foldl_nil]
    generalize (List.range k).foldl (ring_buffer_read_body w) (s, d) = st at *
    unfold ring_buffer_read_body
    refine ⟨retreat_wf iwf il, ?_, ?_, ?_, ?_, ?_⟩
    · have := retreat_calculate iwf il hne; simp only; omega
    · rw [ict, retreat_contents iwf il hne, List.map_append]
      simp only [List.map_cons, List.map_nil, Function.update_same, List.append_assoc,
        List.singleton_append]
      congr 1
      apply List.map_congr_left
      intro i hi
      rw [List.mem_range] at hi
      rw [Function.update_noteq (by omega)]
    · simp only; rw [retreat_eq iwf il]; exact ihd
    · simp only; rw [retreat_eq iwf il]; exact iln
    · simp only; rw [retreat_eq iwf il]; exact ibf

/-- The loop of `ring_buffer_peek` follows the loop of `ring_buffer_read`: the
local cursor is the tail of the read loop and the destinations agree. -/
theorem peek_loop_eq (w : Nat) (d : Nat → uint8_t) (s : ring_buffer_t) (n : Nat) :
    ((List.range n).foldl (ring_buffer_peek_body w s) (s.tail, d)).1
      = ((List.range n).foldl (ring_buffer_read_body w) (s, d)).1.tail ∧
    ((List.range n).foldl (ring_buffer_peek_body w s) (s.tail, d)).2
      = ((List.range n).foldl (ring_buffer_read_body w) (s, d)).2 ∧
    ((List.range n).foldl (ring_buffer_read_body w) (s, d)).1.length = s.length ∧
    ((List.range n).foldl (ring_buffer_read_body w) (s, d)).1.buffer = s.buffer := by
  induction n with
  | zero => simp
  | succ k ih =>
    obtain ⟨i1, i2, i3, i4⟩ := ih
    rw [List.range_succ, List.foldl_append, List.foldl_cons, List.foldl_nil,
      List.foldl_append, List.foldl_cons, List.foldl_nil]
    generalize (List.range k).foldl (ring_buffer_read_body w) (s, d) = r at *
    generalize (List.range k).foldl (ring_buffer_peek_body w s) (s.tail, d) = p at *
    simp [ring_buffer_peek_body, ring_buffer_read_body, retreat_tail_pointer, buffer_load,
      i1, i2, i3, i4]

/-! ## The public functions on a well-formed state -/

theorem isNone_of_backed {w : Nat} {s : ring_buffer_t} (hb : Backed w s) :
    s.buffer.isNone = false := by
  obtain ⟨m, hm⟩ := Option.isSome_iff_exists.1 hb.1
  simp [hm]

theorem free_space_zero_iff {w : Nat} {s : ring_buffer_t} (hwf : WellFormed s)
    (hl : s.length < 2 ^ w) : free_space w s = 0 ↔ s.full = true := by
  unfold free_space
  rw [free_space_eq hwf hl, full_iff hwf hl]
  have := calculate_le hwf hl
  omega

theorem put_byte_full {w : Nat} {s : ring_buffer_t} (hwf : WellFormed s) (hb : Backed w s)
    (hfull : s.full = true) (b : uint8_t) :
    ring_buffer_put_byte w (some s) b = (RING_BUFFER_NOT_ENOUGH_SPACE, some s) := by
  have h0 := (free_space_zero_iff hwf hb.2).2 hfull
  unfold free_space at h0
  simp [ring_buffer_put_byte, isNone_of_backed hb, h0]

theorem put_byte_ok {w : Nat} {s : ring_buffer_t} (hwf : WellFormed s) (hb : Backed w s)
    (hfull : s.full = false) (b : uint8_t) :
    ring_buffer_put_byte w (some s) b =
      (RING_BUFFER_OK, some (advance_head_pointer w (buffer_store s s.head b))) := by
  have h0 : free_space w s ≠ 0 := by
    intro h; have := (free_space_zero_iff hwf hb.2).1 h; simp [hfull] at this
  unfold free_space at h0
  simp [ring_buffer_put_byte, isNone_of_backed hb, h0]

theorem get_byte_empty {w : Nat} {s : ring_buffer_t} (hb : Backed w s)
    (he : ring_buffer_is_empty_inline s = true) (o : uint8_t) :
    ring_buffer_get_byte w (some s) (some o) = (RING_BUFFER_ERROR_NO_DATA, some s, some o) := by
  simp [ring_buffer_get_byte, isNone_of_backed hb, he]

theorem get_byte_ok {w : Nat} {s : ring_buffer_t} (hb : Backed w s)
    (he : ring_buffer_is_empty_inline s = false) (o : uint8_t) :
    ring_buffer_get_byte w (some s) (some o) =
      (RING_BUFFER_OK, some (retreat_tail_pointer w s), some (buffer_load s s.tail)) := by
  simp [ring_buffer_get_byte, isNone_of_backed hb, he]

theorem write_fail {w : Nat} {s : ring_buffer_t} (hb : Backed w s) (d : Nat → uint8_t)
    (n : Nat) (h : free_space w s < n) :
    ring_buffer_write w (some s) (some d) n = (RING_BUFFER_NOT_ENOUGH_SPACE, some s) := by
  unfold free_space at h
  simp [ring_buffer_write, isNone_of_backed hb, h]

theorem write_ok {w : Nat} {s : ring_buffer_t} (hb : Backed w s) (d : Nat → uint8_t)
    (n : Nat) (h : ¬ free_space w s < n) :
    ring_buffer_write w (some s) (some d) n =
      (RING_BUFFER_OK, some ((List.range n).foldl (ring_buffer_write_body w d) s)) := by
  unfold free_space at h
  simp only [ring_buffer_write, isNone_of_backed hb, h]
  simp

theorem read_fail {w : Nat} {s : ring_buffer_t} (hb : Backed w s) (d : Nat → uint8_t)
    (n : Nat) (h : data_length w s < n) :
    ring_buffer_read w (some s) (some d) n =
      (RING_BUFFER_ERROR_INSUFFICIENT_DATA, some s, some d) := by
  unfold data_length at h
  simp [ring_buffer_read, isNone_of_backed hb, h]

theorem read_ok {w : Nat} {s : ring_buffer_t} (hb : Backed w s) (d : Nat → uint8_t)
    (n : Nat) (h : ¬ data_length w s < n) :
    ring_buffer_read w (some s) (some d) n =
      (RING_BUFFER_OK, some ((List.range n).foldl (ring_buffer_read_body w) (s, d)).1,
        some ((List.range n).foldl (ring_buffer_read_body w) (s, d)).2) := by
  unfold data_length at h
  simp only [ring_buffer_read, isNone_of_backed hb, h]
  simp

theorem peek_fail {w : Nat} {s : ring_buffer_t} (hb : Backed w s) (d : Nat → uint8_t)
    (n : Nat) (h : data_length w s < n) :
    ring_buffer_peek w (some s) (some d) n =
      (RING_BUFFER_ERROR_INSUFFICIENT_DATA, some s, some d) := by
  unfold data_length at h
  simp [ring_buffer_peek, isNone_of_backed hb, h]

theorem peek_ok {w : Nat} {s : ring_buffer_t} (hb : Backed w s) (d : Nat → uint8_t)
    (n : Nat) (h : ¬ data_length w s < n) :
    ring_buffer_peek w (some s) (some d) n =
      (RING_BUFFER_OK, some s,
        some ((List.range n).foldl (ring_buffer_peek_body w s) (s.tail, d)).2) := by
  unfold data_length at h
  simp only [ring_buffer_peek, isNone_of_backed hb, h]
  simp

theorem free_space_lt_iff {w : Nat} {s : ring_buffer_t} (hwf : WellFormed s)
    (hl : s.length < 2 ^ w) (n : Nat) :
    ¬ free_space w s < n ↔ data_length w s + n ≤ s.length := by
  unfold free_space data_length
  rw [free_space_eq hwf hl]
  have := calculate_le hwf hl
  omega

theorem init_eq {buffer : byte_ptr} {size : Nat} {status : Option ring_buffer_status_t}
    {malloc : Option ring_buffer_t} {s0 : ring_buffer_t}
    (h : (ring_buffer_init buffer size status malloc).1 = some s0) :
    0 < size ∧ buffer.isSome = true ∧
      s0 = { buffer := buffer, head := 0, tail := 0, length := size, full := false } := by
  unfold ring_buffer_init at h
  cases buffer with
  | none => simp at h
  | some mem =>
    by_cases hs : size = 0
    · simp [hs] at h
    · cases malloc with
      | none => simp [hs] at h
      | some blk =>
        simp [hs, ring_buffer_reset] at h
        exact ⟨Nat.pos_of_ne_zero hs, rfl, h.symm⟩

theorem init_wf {w : Nat} {buffer : byte_ptr} {size : Nat}
    {status : Option ring_buffer_status_t} {malloc : Option ring_buffer_t} {s0 : ring_buffer_t}
    (hsz : size < 2 ^ w) (h : (ring_buffer_init buffer size status malloc).1 = some s0) :
    WellFormed s0 ∧ Backed w s0 ∧ s0.length = size ∧ data_length w s0 = 0 := by
  obtain ⟨h0, hsome, rfl⟩ := init_eq h
  have hwf : WellFormed (⟨buffer, 0, 0, size, false⟩ : ring_buffer_t) :=
    ⟨h0, h0, h0, by simp⟩
  refine ⟨hwf, ⟨hsome, hsz⟩, rfl, ?_⟩
  unfold data_length
  exact (empty_iff hwf hsz).1 (by simp [ring_buffer_is_empty_inline])

theorem contents_length (w : Nat) (s : ring_buffer_t) :
    (contents w s).length = data_length w s := by
  simp [contents]

theorem bytes_of_length (d : Nat → uint8_t) (n : Nat) : (bytes_of d n).length = n := by
  simp [bytes_of]

/-- Effect of one call on a well-formed state: the state stays well-formed,
the capacity is kept, and, unless the call is a reset, the occupied bytes
followed by the enqueued ones are the dequeued ones followed by the new
occupied bytes. -/
theorem call_spec {w : Nat} {s : ring_buffer_t} (hwf : WellFormed s) (hb : Backed w s)
    (c : ring_buffer_call) :
    ∃ s1, c.apply w (some s) = some s1 ∧ WellFormed s1 ∧ Backed w s1 ∧ s1.length = s.length ∧
      (c.is_reset = false →
        contents w s ++ c.enqueued w (some s) = c.dequeued w (some s) ++ contents w s1) := by
  have hl := hb.2
  cases c with
  | reset =>
    refine ⟨_, rfl, ?_, ?_, rfl, ?_⟩
    · exact ⟨hwf.1, hwf.1, hwf.1, by simp⟩
    · exact hb
    · simp [ring_buffer_call.is_reset]
  | put_byte b =>
    cases hfull : s.full with
    | true =>
      refine ⟨s, ?_, hwf, hb, rfl, ?_⟩
      · simp [ring_buffer_call.apply, put_byte_full hwf hb hfull]
      · simp [ring_buffer_call.enqueued, ring_buffer_call.dequeued, put_byte_full hwf hb hfull]
    | false =>
      refine ⟨_, ?_, write_body_wf hwf hl hfull b, write_body_backed hwf hb hfull b, ?_, ?_⟩
      · simp [ring_buffer_call.apply, put_byte_ok hwf hb hfull]
      · rw [write_body_eq hwf hl hfull]
      · simp [ring_buffer_call.enqueued, ring_buffer_call.dequeued, put_byte_ok hwf hb hfull,
          write_body_contents hwf hb hfull]
  | get_byte o =>
    cases o with
    | none =>
      refine ⟨s, ?_, hwf, hb, rfl, ?_⟩
      · simp [ring_buffer_call.apply, ring_buffer_get_byte]
      · simp [ring_buffer_call.enqueued, ring_buffer_call.dequeued, ring_buffer_get_byte]
    | some o =>
      cases he : ring_buffer_is_empty_inline s with
      | true =>
        refine ⟨s, ?_, hwf, hb, rfl, ?_⟩
        · simp [ring_buffer_call.apply, get_byte_empty hb he]
        · simp [ring_buffer_call.enqueued, ring_buffer_call.dequeued, get_byte_empty hb he]
      | false =>
        have hne : ring_buffer_calculate_available_data w s ≠ 0 := by
          intro h; have := (empty_iff hwf hl).2 h; simp [he] at this
        refine ⟨_, ?_, retreat_wf hwf hl, ?_, ?_, ?_⟩
        · simp [ring_buffer_call.apply, get_byte_ok hb he]
        · rw [retreat_eq hwf hl]; exact hb
        · rw [retreat_eq hwf hl]
        · simp [ring_buffer_call.enqueued, ring_buffer_call.dequeued, get_byte_ok hb he,
            retreat_contents hwf hl hne]
  | write d n =>
    cases d with
    | none =>
      refine ⟨s, ?_, hwf, hb, rfl, ?_⟩
      · simp [ring_buffer_call.apply, ring_buffer_write]
      · simp [ring_buffer_call.enqueued, ring_buffer_call.dequeued]
    | some d =>
      by_cases hfree : free_space w s < n
      · refine ⟨s, ?_, hwf, hb, rfl, ?_⟩
        · simp [ring_buffer_call.apply, write_fail hb d n hfree]
        · simp [ring_buffer_call.enqueued, ring_buffer_call.dequeued, write_fail hb d n hfree]
      · have hn := (free_space_lt_iff hwf hl n).1 hfree
        obtain ⟨iwf, ib, _, ict, _, iln⟩ := write_loop_spec d hwf hb n hn
        refine ⟨_, ?_, iwf, ib, iln, ?_⟩
        · simp [ring_buffer_call.apply, write_ok hb d n hfree]
        · simp [ring_buffer_call.enqueued, ring_buffer_call.dequeued, write_ok hb d n hfree, ict]
  | read d n =>
    cases d with
    | none =>
      refine ⟨s, ?_, hwf, hb, rfl, ?_⟩
      · simp [ring_buffer_call.apply, ring_buffer_read]
      · simp [ring_buffer_call.enqueued, ring_buffer_call.dequeued, ring_buffer_read]
    | some d =>
      by_cases hdat : data_length w s < n
      · refine ⟨s, ?_, hwf, hb, rfl, ?_⟩
        · simp [ring_buffer_call.apply, read_fail hb d n hdat]
        · simp [ring_buffer_call.enqueued, ring_buffer_call.dequeued, read_fail hb d n hdat]
      · obtain ⟨iwf, _, ict, _, iln, ibf⟩ :=
          read_loop_spec d hwf hl n (by unfold data_length at hdat; omega)
        refine ⟨_, ?_, iwf, ?_, iln, ?_⟩
        · simp [ring_buffer_call.apply, read_ok hb d n hdat]
        · exact ⟨by rw [ibf]; exact hb.1, by rw [iln]; exact hl⟩
        · intro _
          simp only [ring_buffer_call.enqueued, ring_buffer_call.dequeued, read_ok hb d n hdat,
            List.append_nil]
          exact ict
  | peek d n =>
    refine ⟨s, ?_, hwf, hb, rfl, ?_⟩
    · cases d with
      | none => simp [ring_buffer_call.apply, ring_buffer_peek]
      | some d =>
        by_cases hdat : data_length w s < n
        · simp [ring_buffer_call.apply, peek_fail hb d n hdat]
        · simp [ring_buffer_call.apply, peek_ok hb d n hdat]
    · simp [ring_buffer_call.enqueued, ring_buffer_call.dequeued]

/-- Effect of a sequence of calls on a well-formed state. -/
theorem run_spec {w : Nat} (calls : List ring_buffer_call) :
    ∀ {s : ring_buffer_t}, WellFormed s → Backed w s →
    ∃ s1, ring_buffer_run w calls (some s) = some s1 ∧ WellFormed s1 ∧ Backed w s1 ∧
      s1.length = s.length ∧
      ((∀ c ∈ calls, c.is_reset = false) →
        contents w s ++ ring_buffer_enqueued w calls (some s) =
          ring_buffer_dequeued w calls (some s) ++ contents w s1) := by
  induction calls with
  | nil =>
    intro s hwf hb
    exact ⟨s, rfl, hwf, hb, rfl, by simp [ring_buffer_enqueued, ring_buffer_dequeued]⟩
  | cons c cs ih =>
    intro s hwf hb
    obtain ⟨s1, h1, wf1, b1, l1, c1⟩ := call_spec hwf hb c
    obtain ⟨s2, h2, wf2, b2, l2, c2⟩ := ih wf1 b1
    refine ⟨s2, ?_, wf2, b2, by rw [l2, l1], ?_⟩
    · simp only [ring_buffer_run, List.foldl_cons, h1]
      exact h2
    · intro hall
      have hc := c1 (hall c (List.mem_cons_self _ _))
      have hcs := c2 (fun x hx => hall x (List.mem_cons_of_mem _ hx))
      simp only [ring_buffer_enqueued, ring_buffer_dequeued, h1]
      rw [← List.append_assoc, hc, List.append_assoc, hcs, List.append_assoc]

/-! ## Index bounds along call sequences -/

theorem advance_in_bounds {size : Nat} (w : Nat) {s : ring_buffer_t} (h : InBounds size s) :
    InBounds size (advance_head_pointer w s) := by
  obtain ⟨h0, hh, ht, hl⟩ := h
  unfold advance_head_pointer
  cases hf : s.full with
  | true => exact ⟨h0, Nat.mod_lt _ h0, Nat.mod_lt _ h0, hl⟩
  | false => exact ⟨h0, Nat.mod_lt _ h0, ht, hl⟩

theorem store_in_bounds {size : Nat} {s : ring_buffer_t} (h : InBounds size s) (i : Nat)
    (v : uint8_t) : InBounds size (buffer_store s i v) := h

theorem retreat_in_bounds {size : Nat} (w : Nat) {s : ring_buffer_t} (h : InBounds size s) :
    InBounds size (retreat_tail_pointer w s) := by
  obtain ⟨h0, hh, ht, hl⟩ := h
  exact ⟨h0, hh, Nat.mod_lt _ h0, hl⟩

theorem write_loop_in_bounds {size : Nat} (w : Nat) (d : Nat → uint8_t) (l : List Nat) :
    ∀ {s : ring_buffer_t}, InBounds size s →
      InBounds size (l.foldl (ring_buffer_write_body w d) s) := by
  induction l with
  | nil => intro s h; exact h
  | cons i l ih =>
    intro s h
    exact ih (advance_in_bounds w (store_in_bounds h _ _))

theorem read_loop_in_bounds {size : Nat} (w : Nat) (l : List Nat) :
    ∀ {st : ring_buffer_t × (Nat → uint8_t)}, InBounds size st.1 →
      InBounds size (l.foldl (ring_buffer_read_body w) st).1 := by
  induction l with
  | nil => intro s h; exact h
  | cons i l ih =>
    intro s h
    exact ih (retreat_in_bounds w h)

theorem call_in_bounds {size : Nat} (w : Nat) {s : ring_buffer_t} (h : InBounds size s)
    (c : ring_buffer_call) : ∃ s1, c.apply w (some s) = some s1 ∧ InBounds size s1 := by
  cases c with
  | reset => exact ⟨_, rfl, h.1, h.1, h.1, h.2.2.2⟩
  | put_byte b =>
    simp only [ring_buffer_call.apply, ring_buffer_put_byte]
    split_ifs
    · exact ⟨s, rfl, h⟩
    · exact ⟨s, rfl, h⟩
    · exact ⟨_, rfl, advance_in_bounds w (store_in_bounds h _ _)⟩
  | get_byte o =>
    cases o with
    | none => exact ⟨s, rfl, h⟩
    | some o =>
      simp only [ring_buffer_call.apply, ring_buffer_get_byte]
      split_ifs
      · exact ⟨s, rfl, h⟩
      · exact ⟨s, rfl, h⟩
      · exact ⟨_, rfl, retreat_in_bounds w h⟩
  | write d n =>
    cases d with
    | none => exact ⟨s, rfl, h⟩
    | some d =>
      simp only [ring_buffer_call.apply, ring_buffer_write]
      split_ifs
      · exact ⟨s, rfl, h⟩
      · exact ⟨s, rfl, h⟩
      · exact ⟨_, rfl, write_loop_in_bounds w d _ h⟩
  | read d n =>
    cases d with
    | none => exact ⟨s, rfl, h⟩
    | some d =>
      simp only [ring_buffer_call.apply, ring_buffer_read]
      split_ifs
      · exact ⟨s, rfl, h⟩
      · exact ⟨s, rfl, h⟩
      · exact ⟨_, rfl, read_loop_in_bounds w _ h⟩
  | peek d n =>
    cases d with
    | none => exact ⟨s, rfl, h⟩
    | some d =>
      simp only [ring_buffer_call.apply, ring_buffer_peek]
      split_ifs
      · exact ⟨s, rfl, h⟩
      · exact ⟨s, rfl, h⟩
      · exact ⟨s, rfl, h⟩

theorem run_in_bounds {size : Nat} (w : Nat) (calls : List ring_buffer_call) :
    ∀ {s : ring_buffer_t}, InBounds size s →
      ∃ s1, ring_buffer_run w calls (some s) = some s1 ∧ InBounds size s1 := by
  induction calls with
  | nil => intro s h; exact ⟨s, rfl, h⟩
  | cons c cs ih =>
    intro s h
    obtain ⟨s1, h1, b1⟩ := call_in_bounds w h c
    obtain ⟨s2, h2, b2⟩ := ih b1
    refine ⟨s2, ?_, b2⟩
    simp only [ring_buffer_run, List.foldl_cons, h1]
    exact h2

/-! ## Claims: FIFO order and invariants -/

theorem take_drop_of_append {α : Type} {l a b : List α} (n : Nat) (h : l = a ++ b)
    (ha : a.length = n) : l.take n = a ∧ l.drop n = b := by
  subst h
  subst ha
  simp

/-- A bulk write that fits succeeds and appends to the contents. -/
theorem write_success {w : Nat} {s : ring_buffer_t} (hwf : WellFormed s) (hb : Backed w s)
    (d : Nat → uint8_t) (n : Nat) (hn : data_length w s + n ≤ s.length) :
    ∃ s1, ring_buffer_write w (some s) (some d) n = (RING_BUFFER_OK, some s1) ∧
      WellFormed s1 ∧ Backed w s1 ∧ data_length w s1 = data_length w s + n ∧
      contents w s1 = contents w s ++ bytes_of d n ∧ s1.tail = s.tail ∧
      s1.length = s.length := by
  obtain ⟨iwf, ib, ic, ict, itl, iln⟩ := write_loop_spec d hwf hb n hn
  exact ⟨_, write_ok hb d n ((free_space_lt_iff hwf hb.2 n).2 hn), iwf, ib, ic, ict, itl, iln⟩

/-- A bulk read of available bytes succeeds, returns the first bytes of the
contents and drops them. -/
theorem read_success {w : Nat} {s : ring_buffer_t} (hwf : WellFormed s) (hb : Backed w s)
    (d : Nat → uint8_t) (n : Nat) (hn : n ≤ data_length w s) :
    ∃ s1 out, ring_buffer_read w (some s) (some d) n = (RING_BUFFER_OK, some s1, some out) ∧
      WellFormed s1 ∧ Backed w s1 ∧ data_length w s1 + n = data_length w s ∧
      bytes_of out n = (contents w s).take n ∧ contents w s1 = (contents w s).drop n ∧
      s1.head = s.head ∧ s1.length = s.length := by
  obtain ⟨iwf, ic, ict, ihd, iln, ibf⟩ := read_loop_spec d hwf hb.2 n hn
  obtain ⟨h1, h2⟩ := take_drop_of_append n ict (by simp)
  refine ⟨_, _, read_ok hb d n (by omega), iwf, ?_, ic, h1.symm, h2.symm, ihd, iln⟩
  exact ⟨by rw [ibf]; exact hb.1, by rw [iln]; exact hb.2⟩

theorem init_contents (w : Nat) {buffer : byte_ptr} {size : Nat}
    {status : Option ring_buffer_status_t} {malloc : Option ring_buffer_t} {s0 : ring_buffer_t}
    (h : (ring_buffer_init buffer size status malloc).1 = some s0) : contents w s0 = [] := by
  obtain ⟨_, _, rfl⟩ := init_eq h
  simp [contents, data_length, ring_buffer_calculate_available_data, size_sub]

/-- C1 (FIFO simulation).  With `contents` the occupied bytes read in order
from the tail: `ring_buffer_init` gives empty contents; on a well-formed state
a successful `ring_buffer_put_byte` or `ring_buffer_write` appends the given
bytes to the contents; a successful `ring_buffer_get_byte` or
`ring_buffer_read` of `n` bytes returns the first `n` bytes of the contents
and drops them; hence over every sequence of calls without a reset made after
a successful init, the bytes enqueued are the bytes dequeued followed by the
contents; and in the scenario of capacity 5 (write 1 to 5, read 2, write 6
and 7) the read gives 1, 2 and the contents end as 3, 4, 5, 6, 7. -/
theorem fifo_simulation (w : Nat) (s : ring_buffer_t) (hwf : WellFormed s) (hb : Backed w s) :
    (∀ buffer size status malloc s0,
      (ring_buffer_init buffer size status malloc).1 = some s0 → contents w s0 = []) ∧
    (∀ b, (ring_buffer_put_byte w (some s) b).1 = RING_BUFFER_OK →
      ∃ s1, (ring_buffer_put_byte w (some s) b).2 = some s1 ∧
        contents w s1 = contents w s ++ [b]) ∧
    (∀ d n, (ring_buffer_write w (some s) (some d) n).1 = RING_BUFFER_OK →
      ∃ s1, (ring_buffer_write w (some s) (some d) n).2 = some s1 ∧
        contents w s1 = contents w s ++ bytes_of d n) ∧
    (∀ o, (ring_buffer_get_byte w (some s) (some o)).1 = RING_BUFFER_OK →
      ∃ s1 b, (ring_buffer_get_byte w (some s) (some o)).2 = (some s1, some b) ∧
        [b] = (contents w s).take 1 ∧ contents w s1 = (contents w s).drop 1) ∧
    (∀ d n, (ring_buffer_read w (some s) (some d) n).1 = RING_BUFFER_OK →
      ∃ s1 out, (ring_buffer_read w (some s) (some d) n).2 = (some s1, some out) ∧
        bytes_of out n = (contents w s).take n ∧ contents w s1 = (contents w s).drop n) ∧
    (∀ buffer size status malloc s0 calls, size < 2 ^ w →
      (ring_buffer_init buffer size status malloc).1 = some s0 →
      (∀ c ∈ calls, c.is_reset = false) →
      ∃ s1, ring_buffer_run w calls (some s0) = some s1 ∧
        ring_buffer_enqueued w calls (some s0) =
          ring_buffer_dequeued w calls (some s0) ++ contents w s1) ∧
    (5 < 2 ^ w → ∀ mem status blk dst, ∃ s0 s1 s2 out s3,
      (ring_buffer_init (some mem) 5 status (some blk)).1 = some s0 ∧
      ring_buffer_write w (some s0) (some (array_of [1, 2, 3, 4, 5])) 5
        = (RING_BUFFER_OK, some s1) ∧
      ring_buffer_read w (some s1) (some dst) 2 = (RING_BUFFER_OK, some s2, some out) ∧
      bytes_of out 2 = [1, 2] ∧
      ring_buffer_write w (some s2) (some (array_of [6, 7])) 2 = (RING_BUFFER_OK, some s3) ∧
      contents w s3 = [3, 4, 5, 6, 7]) := by
  have hl := hb.2
  refine ⟨?_, ?_, ?_, ?_, ?_, ?_, ?_⟩
  · intro buffer size status malloc s0 h
    exact init_contents w h
  · intro b hst
    cases hfull : s.full with
    | true => rw [put_byte_full hwf hb hfull] at hst; cases hst
    | false =>
      rw [put_byte_ok hwf hb hfull]
      exact ⟨_, rfl, write_body_contents hwf hb hfull b⟩
  · intro d n hst
    by_cases hfree : free_space w s < n
    · rw [write_fail hb d n hfree] at hst; cases hst
    · rw [write_ok hb d n hfree]
      exact ⟨_, rfl, (write_loop_spec d hwf hb n ((free_space_lt_iff hwf hl n).1 hfree)).2.2.2.1⟩
  · intro o hst
    cases he : ring_buffer_is_empty_inline s with
    | true => rw [get_byte_empty hb he] at hst; cases hst
    | false =>
      have hne : ring_buffer_calculate_available_data w s ≠ 0 := by
        intro h; have := (empty_iff hwf hl).2 h; simp [he] at this
      rw [get_byte_ok hb he]
      refine ⟨_, _, rfl, ?_, ?_⟩
      · rw [retreat_contents hwf hl hne]; simp
      · rw [retreat_contents hwf hl hne]; simp
  · intro d n hst
    by_cases hdat : data_length w s < n
    · rw [read_fail hb d n hdat] at hst; cases hst
    · obtain ⟨s1, out, h, _, _, _, h1, h2, _⟩ := read_success hwf hb d n (by omega)
      rw [h]
      exact ⟨s1, out, rfl, h1, h2⟩
  · intro buffer size status malloc s0 calls hsz hinit hall
    obtain ⟨wf0, b0, _, _⟩ := init_wf hsz hinit
    obtain ⟨s1, h1, _, _, _, hc⟩ := run_spec calls wf0 b0
    refine ⟨s1, h1, ?_⟩
    have := hc hall
    rwa [init_contents w hinit, List.nil_append] at this
  · intro h5 mem status blk dst
    have hinit : (ring_buffer_init (some mem) 5 status (some blk)).1
        = some ⟨some mem, 0, 0, 5, false⟩ := rfl
    obtain ⟨wf0, b0, l0, d0⟩ := init_wf h5 hinit
    have hc0 := init_contents w hinit
    obtain ⟨s1, h1, wf1, b1, d1, c1, _, l1⟩ :=
      write_success wf0 b0 (array_of [1, 2, 3, 4, 5]) 5 (by rw [d0])
    obtain ⟨s2, out, h2, wf2, b2, d2, o2, c2, _, l2⟩ :=
      read_success wf1 b1 dst 2 (by rw [d1, d0]; omega)
    obtain ⟨s3, h3, _, _, _, c3, _⟩ :=
      write_success wf2 b2 (array_of [6, 7]) 2 (by rw [l2, l1]; simp only; omega)
    refine ⟨_, s1, s2, out, s3, hinit, h1, h2, ?_, h3, ?_⟩
    · rw [o2, c1, hc0]; rfl
    · rw [c3, c2, c1, hc0]; rfl

/-- Witness of `fifo_simulation`: a well-formed state of capacity 5 that
holds 3, 4, 5 up to the end of the storage (tail 2, head 0); a successful put
of 6 wraps around and makes the contents 3, 4, 5, 6. -/
theorem fifo_simulation_witness :
    WellFormed ⟨some (array_of [1, 2, 3, 4, 5]), 0, 2, 5, false⟩ ∧
    Backed 64 ⟨some (array_of [1, 2, 3, 4, 5]), 0, 2, 5, false⟩ ∧
    contents 64 ⟨some (array_of [1, 2, 3, 4, 5]), 0, 2, 5, false⟩ = [3, 4, 5] ∧
    ∃ s1, (ring_buffer_put_byte 64 (some ⟨some (array_of [1, 2, 3, 4, 5]), 0, 2, 5, false⟩) 6).2
        = some s1 ∧
      contents 64 s1 = contents 64 ⟨some (array_of [1, 2, 3, 4, 5]), 0, 2, 5, false⟩ ++ [6] :=
  ⟨by decide, by decide, by decide,
    (fifo_simulation 64 ⟨some (array_of [1, 2, 3, 4, 5]), 0, 2, 5, false⟩ (by decide)
      (by decide)).2.1 6 (by decide)⟩

/-- C2 (index invariant).  After a successful `ring_buffer_init` with size
`size` and any sequence of reset, put_byte, get_byte, write, read and peek
calls, whatever they return, `head < capacity` and `tail < capacity` hold and
the capacity is still `size`, which is what `ring_buffer_get_capacity`
reports. -/
theorem index_invariant (w size : Nat) (buffer : byte_ptr)
    (status : Option ring_buffer_status_t) (malloc : Option ring_buffer_t) (s0 : ring_buffer_t)
    (calls : List ring_buffer_call)
    (hinit : (ring_buffer_init buffer size status malloc).1 = some s0) :
    ∃ s, ring_buffer_run w calls (some s0) = some s ∧
      s.head < s.length ∧ s.tail < s.length ∧ s.length = size ∧
      ∀ v, ring_buffer_get_capacity (some s) (some v) = (RING_BUFFER_OK, some size) := by
  obtain ⟨h0, _, rfl⟩ := init_eq hinit
  obtain ⟨s, hrun, _, hh, ht, hlen⟩ :=
    run_in_bounds w calls (show InBounds size ⟨buffer, 0, 0, size, false⟩ from ⟨h0, h0, h0, rfl⟩)
  refine ⟨s, hrun, hh, ht, hlen, ?_⟩
  intro v
  simp [ring_buffer_get_capacity, hlen]

/-- Witness of `index_invariant`: capacity 3, then a write of four bytes
(rejected), a write of three bytes, a read of two bytes and a put. -/
theorem index_invariant_witness :
    ∃ s, ring_buffer_run 64
        [.write (some (array_of [1, 2, 3, 4])) 4, .write (some (array_of [1, 2, 3])) 3,
          .read (some (array_of [])) 2, .put_byte 9]
        (some ⟨some (array_of []), 0, 0, 3, false⟩) = some s ∧
      s.head < s.length ∧ s.tail < s.length ∧ s.length = 3 ∧
      ∀ v, ring_buffer_get_capacity (some s) (some v) = (RING_BUFFER_OK, some 3) :=
  index_invariant 64 3 (some (array_of [])) none (some ⟨none, 7, 8, 9, true⟩)
    ⟨some (array_of []), 0, 0, 3, false⟩ _ rfl

/-- C3 (full flag).  After a successful `ring_buffer_init` and any sequence of
calls, the full flag is set if and only if the buffer holds exactly `capacity`
bytes: `ring_buffer_is_full` reports true iff `ring_buffer_get_data_length`
reports the capacity. -/
theorem full_iff_data_length_eq_capacity (w size : Nat) (buffer : byte_ptr)
    (status : Option ring_buffer_status_t) (malloc : Option ring_buffer_t) (s0 : ring_buffer_t)
    (calls : List ring_buffer_call) (hsz : size < 2 ^ w)
    (hinit : (ring_buffer_init buffer size status malloc).1 = some s0) :
    ∃ s, ring_buffer_run w calls (some s0) = some s ∧ s.length = size ∧
      (s.full = true ↔ data_length w s = s.length) ∧
      ∀ v n, ring_buffer_is_full (some s) (some v) = (RING_BUFFER_OK, some true) ↔
        ring_buffer_get_data_length w (some s) (some n) = (RING_BUFFER_OK, some s.length) := by
  obtain ⟨wf0, b0, l0, _⟩ := init_wf hsz hinit
  obtain ⟨s, hrun, wf, b, hlen, _⟩ := run_spec calls wf0 b0
  have hiff := full_iff wf b.2
  refine ⟨s, hrun, by rw [hlen, l0], hiff, ?_⟩
  intro v n
  simp only [ring_buffer_is_full, ring_buffer_is_full_inline, ring_buffer_get_data_length,
    Prod.mk.injEq, true_and, Option.some.injEq]
  exact hiff

/-- Witness of `full_iff_data_length_eq_capacity`: capacity 3, filled by a
write of three bytes. -/
theorem full_iff_data_length_eq_capacity_witness :
    ∃ s, ring_buffer_run 64 [.write (some (array_of [1, 2, 3])) 3]
        (some ⟨some (array_of []), 0, 0, 3, false⟩) = some s ∧ s.length = 3 ∧
      (s.full = true ↔ data_length 64 s = s.length) ∧
      ∀ v n, ring_buffer_is_full (some s) (some v) = (RING_BUFFER_OK, some true) ↔
        ring_buffer_get_data_length 64 (some s) (some n) = (RING_BUFFER_OK, some s.length) :=
  full_iff_data_length_eq_capacity 64 3 (some (array_of [])) none (some ⟨none, 7, 8, 9, true⟩)
    ⟨some (array_of []), 0, 0, 3, false⟩ _ (by decide) rfl

/-- C4 (occupancy and free space).  After a successful `ring_buffer_init` and
any sequence of calls, the value reported by `ring_buffer_get_data_length` is
at most the capacity, the subtraction in `ring_buffer_get_free_space` does not
wrap, and the reported data length plus the reported free space is the
reported capacity. -/
theorem data_length_add_free_space (w size : Nat) (buffer : byte_ptr)
    (status : Option ring_buffer_status_t) (malloc : Option ring_buffer_t) (s0 : ring_buffer_t)
    (calls : List ring_buffer_call) (hsz : size < 2 ^ w)
    (hinit : (ring_buffer_init buffer size status malloc).1 = some s0) :
    ∃ s, ring_buffer_run w calls (some s0) = some s ∧
      (∀ a b c, ∃ len free cap,
        ring_buffer_get_data_length w (some s) (some a) = (RING_BUFFER_OK, some len) ∧
        ring_buffer_get_free_space w (some s) (some b) = (RING_BUFFER_OK, some free) ∧
        ring_buffer_get_capacity (some s) (some c) = (RING_BUFFER_OK, some cap) ∧
        len ≤ cap ∧ free = cap - len ∧ len + free = cap) ∧
      data_length w s ≤ s.length ∧ data_length w s + free_space w s = s.length := by
  obtain ⟨wf0, b0, l0, _⟩ := init_wf hsz hinit
  obtain ⟨s, hrun, wf, b, hlen, _⟩ := run_spec calls wf0 b0
  have hle := calculate_le wf b.2
  have hfree := free_space_eq wf b.2
  refine ⟨s, hrun, ?_, hle, ?_⟩
  · intro a b c
    refine ⟨_, _, _, rfl, rfl, rfl, hle, hfree, ?_⟩
    rw [hfree]; omega
  · unfold free_space data_length
    rw [hfree]; omega

/-- Witness of `data_length_add_free_space`: capacity 3 after a write of two
bytes and a read of one. -/
theorem data_length_add_free_space_witness :
    ∃ s, ring_buffer_run 64 [.write (some (array_of [1, 2])) 2, .read (some (array_of [])) 1]
        (some ⟨some (array_of []), 0, 0, 3, false⟩) = some s ∧
      (∀ a b c, ∃ len free cap,
        ring_buffer_get_data_length 64 (some s) (some a) = (RING_BUFFER_OK, some len) ∧
        ring_buffer_get_free_space 64 (some s) (some b) = (RING_BUFFER_OK, some free) ∧
        ring_buffer_get_capacity (some s) (some c) = (RING_BUFFER_OK, some cap) ∧
        len ≤ cap ∧ free = cap - len ∧ len + free = cap) ∧
      data_length 64 s ≤ s.length ∧ data_length 64 s + free_space 64 s = s.length :=
  data_length_add_free_space 64 3 (some (array_of [])) none (some ⟨none, 7, 8, 9, true⟩)
    ⟨some (array_of []), 0, 0, 3, false⟩ _ (by decide) rfl

/-! ## Claims: contracts of the data-movement operations -/

/-- C5 (bulk write is all-or-nothing).  On a well-formed state with present
data, `ring_buffer_write` returns `RING_BUFFER_NOT_ENOUGH_SPACE` if and only
if the free space (the value `ring_buffer_get_free_space` reports, capacity
minus data length) is less than `length`; it then leaves the control block and
every storage byte as they were; otherwise it returns `RING_BUFFER_OK`. -/
theorem write_all_or_nothing (w : Nat) (s : ring_buffer_t) (hwf : WellFormed s)
    (hb : Backed w s) (d : Nat → uint8_t) (n : Nat) :
    ((ring_buffer_write w (some s) (some d) n).1 = RING_BUFFER_NOT_ENOUGH_SPACE ↔
      free_space w s < n) ∧
    (free_space w s < n → (ring_buffer_write w (some s) (some d) n).2 = some s) ∧
    (¬ free_space w s < n → (ring_buffer_write w (some s) (some d) n).1 = RING_BUFFER_OK) ∧
    (∀ v, ring_buffer_get_free_space w (some s) (some v)
      = (RING_BUFFER_OK, some (free_space w s))) ∧
    free_space w s = s.length - data_length w s := by
  refine ⟨?_, ?_, ?_, fun _ => rfl, free_space_eq hwf hb.2⟩
  · by_cases h : free_space w s < n
    · simp [write_fail hb d n h, h]
    · simp [write_ok hb d n h, h]
  · intro h; rw [write_fail hb d n h]
  · intro h; rw [write_ok hb d n h]

/-- Witness of `write_all_or_nothing`: capacity 5 holding three bytes, a write
of three more is rejected and changes nothing. -/
theorem write_all_or_nothing_witness :
    free_space 64 ⟨some (array_of [1, 2, 3, 4, 5]), 0, 2, 5, false⟩ = 2 ∧
    (ring_buffer_write 64 (some ⟨some (array_of [1, 2, 3, 4, 5]), 0, 2, 5, false⟩)
      (some (array_of [6, 7, 8])) 3).1 = RING_BUFFER_NOT_ENOUGH_SPACE ∧
    (ring_buffer_write 64 (some ⟨some (array_of [1, 2, 3, 4, 5]), 0, 2, 5, false⟩)
      (some (array_of [6, 7, 8])) 3).2 = some ⟨some (array_of [1, 2, 3, 4, 5]), 0, 2, 5, false⟩ :=
  ⟨by decide,
    (write_all_or_nothing 64 ⟨some (array_of [1, 2, 3, 4, 5]), 0, 2, 5, false⟩ (by decide)
      (by decide) (array_of [6, 7, 8]) 3).1.2 (by decide),
    (write_all_or_nothing 64 ⟨some (array_of [1, 2, 3, 4, 5]), 0, 2, 5, false⟩ (by decide)
      (by decide) (array_of [6, 7, 8]) 3).2.1 (by decide)⟩

/-- C6 (bulk read is all-or-nothing).  On a well-formed state with a present
destination, `ring_buffer_read` returns the insufficient-data status if and
only if the data length is less than `length`; it then leaves the control
block, the storage and the destination as they were; otherwise it returns
`RING_BUFFER_OK`.  The insufficient-data status is not
`RING_BUFFER_ERROR_NO_DATA`, and it is the one returned for an empty buffer
and a positive length. -/
theorem read_all_or_nothing (w : Nat) (s : ring_buffer_t) (hwf : WellFormed s)
    (hb : Backed w s) (d : Nat → uint8_t) (n : Nat) :
    ((ring_buffer_read w (some s) (some d) n).1 = RING_BUFFER_ERROR_INSUFFICIENT_DATA ↔
      data_length w s < n) ∧
    (data_length w s < n → (ring_buffer_read w (some s) (some d) n).2 = (some s, some d)) ∧
    (¬ data_length w s < n → (ring_buffer_read w (some s) (some d) n).1 = RING_BUFFER_OK) ∧
    RING_BUFFER_ERROR_INSUFFICIENT_DATA ≠ RING_BUFFER_ERROR_NO_DATA ∧
    (ring_buffer_is_empty_inline s = true → 0 < n →
      (ring_buffer_read w (some s) (some d) n).1 = RING_BUFFER_ERROR_INSUFFICIENT_DATA) ∧
    (∀ v, ring_buffer_get_data_length w (some s) (some v)
      = (RING_BUFFER_OK, some (data_length w s))) := by
  refine ⟨?_, ?_, ?_, by decide, ?_, fun _ => rfl⟩
  · by_cases h : data_length w s < n
    · simp [read_fail hb d n h, h]
    · simp [read_ok hb d n h, h]
  · intro h; rw [read_fail hb d n h]
  · intro h; rw [read_ok hb d n h]
  · intro he hn
    have h0 : data_length w s = 0 := (empty_iff hwf hb.2).1 he
    rw [read_fail hb d n (by omega)]

/-- Witness of `read_all_or_nothing`: capacity 5 holding three bytes, a read
of four is rejected and changes nothing. -/
theorem read_all_or_nothing_witness :
    data_length 64 ⟨some (array_of [1, 2, 3, 4, 5]), 0, 2, 5, false⟩ = 3 ∧
    (ring_buffer_read 64 (some ⟨some (array_of [1, 2, 3, 4, 5]), 0, 2, 5, false⟩)
      (some (array_of [])) 4).1 = RING_BUFFER_ERROR_INSUFFICIENT_DATA ∧
    (ring_buffer_read 64 (some ⟨some (array_of [1, 2, 3, 4, 5]), 0, 2, 5, false⟩)
      (some (array_of [])) 4).2
      = (some ⟨some (array_of [1, 2, 3, 4, 5]), 0, 2, 5, false⟩, some (array_of [])) :=
  ⟨by decide,
    (read_all_or_nothing 64 ⟨some (array_of [1, 2, 3, 4, 5]), 0, 2, 5, false⟩ (by decide)
      (by decide) (array_of []) 4).1.2 (by decide),
    (read_all_or_nothing 64 ⟨some (array_of [1, 2, 3, 4, 5]), 0, 2, 5, false⟩ (by decide)
      (by decide) (array_of []) 4).2.1 (by decide)⟩

theorem buffer_load_write_body {w : Nat} {s : ring_buffer_t} (hwf : WellFormed s)
    (hb : Backed w s) (hfull : s.full = false) (b : uint8_t) (i : Nat) :
    buffer_load (advance_head_pointer w (buffer_store s s.head b)) i =
      if i = s.head then b else buffer_load s i := by
  obtain ⟨m, hm⟩ := Option.isSome_iff_exists.1 hb.1
  rw [write_body_eq hwf hb.2 hfull]
  simp only [buffer_load, hm, Option.map_some', Function.update_apply]

/-- C7 (single-byte enqueue).  On a well-formed state, if the free space is
zero (equivalently the buffer is full) `ring_buffer_put_byte` returns
`RING_BUFFER_NOT_ENOUGH_SPACE` and leaves the control block and the storage as
they were; otherwise it returns `RING_BUFFER_OK`, stores the byte at
`storage[head]`, sets head to `(head + 1) mod capacity`, leaves tail, capacity
and every other storage byte as they were, and sets full to
(new head == tail). -/
theorem put_byte_contract (w : Nat) (s : ring_buffer_t) (hwf : WellFormed s) (hb : Backed w s)
    (b : uint8_t) :
    (free_space w s = 0 ↔ s.full = true) ∧
    (free_space w s = 0 →
      ring_buffer_put_byte w (some s) b = (RING_BUFFER_NOT_ENOUGH_SPACE, some s)) ∧
    (free_space w s ≠ 0 →
      ∃ s1, ring_buffer_put_byte w (some s) b = (RING_BUFFER_OK, some s1) ∧
        buffer_load s1 s.head = b ∧
        s1.head = (s.head + 1) % s.length ∧
        s1.tail = s.tail ∧
        s1.length = s.length ∧
        (∀ i, i ≠ s.head → buffer_load s1 i = buffer_load s i) ∧
        s1.full = decide (s1.head = s1.tail)) := by
  have hz := free_space_zero_iff hwf hb.2
  refine ⟨hz, ?_, ?_⟩
  · intro h
    exact put_byte_full hwf hb (hz.1 h) b
  · intro h
    have hfull : s.full = false := by
      cases hf : s.full with
      | false => rfl
      | true => exact absurd (hz.2 hf) h
    refine ⟨_, put_byte_ok hwf hb hfull b, ?_, ?_, ?_, ?_, ?_, ?_⟩
    · rw [buffer_load_write_body hwf hb hfull]; simp
    · rw [write_body_eq hwf hb.2 hfull]
    · rw [write_body_eq hwf hb.2 hfull]
    · rw [write_body_eq hwf hb.2 hfull]
    · intro i hi
      rw [buffer_load_write_body hwf hb hfull]; simp [hi]
    · rw [write_body_eq hwf hb.2 hfull]

/-- Witness of `put_byte_contract`: capacity 5 holding three bytes with the
head at 4; the put succeeds and the head wraps to 0. -/
theorem put_byte_contract_witness :
    free_space 64 ⟨some (array_of [0, 1, 2, 3, 0]), 4, 1, 5, false⟩ ≠ 0 ∧
    ∃ s1, ring_buffer_put_byte 64 (some ⟨some (array_of [0, 1, 2, 3, 0]), 4, 1, 5, false⟩) 9
        = (RING_BUFFER_OK, some s1) ∧
      buffer_load s1 4 = 9 ∧ s1.head = (4 + 1) % 5 ∧ s1.tail = 1 ∧ s1.length = 5 ∧
      (∀ i, i ≠ 4 →
        buffer_load s1 i = buffer_load ⟨some (array_of [0, 1, 2, 3, 0]), 4, 1, 5, false⟩ i) ∧
      s1.full = decide (s1.head = s1.tail) :=
  ⟨by decide,
    (put_byte_contract 64 ⟨some (array_of [0, 1, 2, 3, 0]), 4, 1, 5, false⟩ (by decide)
      (by decide) 9).2.2 (by decide)⟩

/-- C8 (single-byte dequeue).  On a well-formed state with a present
destination, `ring_buffer_get_byte` returns `RING_BUFFER_ERROR_NO_DATA` if and
only if the buffer is empty (full false and head == tail), and then leaves the
control block, the storage and the destination as they were; otherwise it
returns `RING_BUFFER_OK` with the byte `storage[tail]`, clears full, sets tail
to `(tail + 1) mod capacity` and leaves head, capacity and the storage as they
were. -/
theorem get_byte_contract (w : Nat) (s : ring_buffer_t) (hwf : WellFormed s) (hb : Backed w s)
    (o : uint8_t) :
    ((ring_buffer_get_byte w (some s) (some o)).1 = RING_BUFFER_ERROR_NO_DATA ↔
      (s.full = false ∧ s.head = s.tail)) ∧
    ((s.full = false ∧ s.head = s.tail) →
      ring_buffer_get_byte w (some s) (some o) = (RING_BUFFER_ERROR_NO_DATA, some s, some o)) ∧
    (¬ (s.full = false ∧ s.head = s.tail) →
      ∃ s1, ring_buffer_get_byte w (some s) (some o)
          = (RING_BUFFER_OK, some s1, some (buffer_load s s.tail)) ∧
        s1.full = false ∧
        s1.tail = (s.tail + 1) % s.length ∧
        s1.head = s.head ∧
        s1.length = s.length ∧
        s1.buffer = s.buffer) ∧
    (∀ v, ring_buffer_is_empty (some s) (some v)
      = (RING_BUFFER_OK, some (decide (s.full = false ∧ s.head = s.tail)))) := by
  have hemp : ring_buffer_is_empty_inline s = true ↔ (s.full = false ∧ s.head = s.tail) := by
    unfold ring_buffer_is_empty_inline
    cases s.full <;> simp [eq_comm]
  refine ⟨?_, ?_, ?_, ?_⟩
  · cases he : ring_buffer_is_empty_inline s with
    | true => simp [get_byte_empty hb he, ← hemp, he]
    | false => simp [get_byte_ok hb he, ← hemp, he]
  · intro h
    exact get_byte_empty hb (hemp.2 h) o
  · intro h
    have he : ring_buffer_is_empty_inline s = false := by
      cases he : ring_buffer_is_empty_inline s with
      | false => rfl
      | true => exact absurd (hemp.1 he) h
    refine ⟨_, get_byte_ok hb he o, ?_, ?_, ?_, ?_, ?_⟩ <;> rw [retreat_eq hwf hb.2]
  · intro v
    simp only [ring_buffer_is_empty, Prod.mk.injEq, true_and, Option.some.injEq]
    cases he : ring_buffer_is_empty_inline s with
    | true => simp [hemp.1 he]
    | false =>
      have : ¬ (s.full = false ∧ s.head = s.tail) := by
        intro h; rw [hemp.2 h] at he; cases he
      simp [this]

/-- Witness of `get_byte_contract`: capacity 5, full, with the tail at 4; the
get succeeds with `storage[4]` and the tail wraps to 0. -/
theorem get_byte_contract_witness :
    ¬ ((⟨some (array_of [1, 2, 3, 4, 5]), 4, 4, 5, true⟩ : ring_buffer_t).full = false ∧
      (⟨some (array_of [1, 2, 3, 4, 5]), 4, 4, 5, true⟩ : ring_buffer_t).head =
        (⟨some (array_of [1, 2, 3, 4, 5]), 4, 4, 5, true⟩ : ring_buffer_t).tail) ∧
    ∃ s1, ring_buffer_get_byte 64 (some ⟨some (array_of [1, 2, 3, 4, 5]), 4, 4, 5, true⟩) (some 0)
        = (RING_BUFFER_OK, some s1,
          some (buffer_load ⟨some (array_of [1, 2, 3, 4, 5]), 4, 4, 5, true⟩ 4)) ∧
      s1.full = false ∧ s1.tail = (4 + 1) % 5 ∧ s1.head = 4 ∧ s1.length = 5 ∧
      s1.buffer = some (array_of [1, 2, 3, 4, 5]) :=
  ⟨by decide,
    (get_byte_contract 64 ⟨some (array_of [1, 2, 3, 4, 5]), 4, 4, 5, true⟩ (by decide)
      (by decide) 0).2.2.1 (by decide)⟩

/-- The loop of `ring_buffer_read` leaves the same control block and the same
first `n` destination bytes whatever the destination held before. -/
theorem read_loop_dest (w : Nat) (s : ring_buffer_t) (d e : Nat → uint8_t) (n : Nat) :
    ((List.range n).foldl (ring_buffer_read_body w) (s, d)).1
      = ((List.range n).foldl (ring_buffer_read_body w) (s, e)).1 ∧
    ∀ i, i < n → ((List.range n).foldl (ring_buffer_read_body w) (s, d)).2 i
      = ((List.range n).foldl (ring_buffer_read_body w) (s, e)).2 i := by
  induction n with
  | zero => simp
  | succ k ih =>
    obtain ⟨i1, i2⟩ := ih
    rw [List.range_succ, List.foldl_append, List.foldl_cons, List.foldl_nil,
      List.foldl_append, List.foldl_cons, List.foldl_nil]
    generalize (List.range k).foldl (ring_buffer_read_body w) (s, d) = p at *
    generalize (List.range k).foldl (ring_buffer_read_body w) (s, e) = q at *
    refine ⟨by simp [ring_buffer_read_body, i1], ?_⟩
    intro i hi
    simp only [ring_buffer_read_body, Function.update_apply, i1]
    by_cases hik : i = k
    · simp [hik]
    · simp only [hik, if_false]
      exact i2 i (by omega)

theorem bytes_of_congr {d e : Nat → uint8_t} {n : Nat} (h : ∀ i, i < n → d i = e i) :
    bytes_of d n = bytes_of e n := by
  unfold bytes_of
  apply List.map_congr_left
  intro i hi
  exact h i (List.mem_range.1 hi)

/-- The status of `ring_buffer_peek` is the status of `ring_buffer_read`, and
on success the first `n` destination bytes agree. -/
theorem peek_eq_read (w : Nat) (s : ring_buffer_t) (d e : Nat → uint8_t) (n : Nat) :
    (ring_buffer_peek w (some s) (some d) n).1 = (ring_buffer_read w (some s) (some e) n).1 ∧
    ((ring_buffer_peek w (some s) (some d) n).1 = RING_BUFFER_OK →
      ∃ p r, (ring_buffer_peek w (some s) (some d) n).2.2 = some p ∧
        (ring_buffer_read w (some s) (some e) n).2.2 = some r ∧
        bytes_of p n = bytes_of r n) := by
  unfold ring_buffer_peek ring_buffer_read
  cases hnone : s.buffer.isNone with
  | true => simp [hnone]
  | false =>
    by_cases hlt : ring_buffer_calculate_available_data w s < n
    · simp [hnone, hlt]
    · simp only [hnone, hlt, if_false, Bool.false_eq_true, true_implies, true_and]
      refine ⟨_, _, rfl, rfl, ?_⟩
      rw [(peek_loop_eq w d s n).2.1]
      exact bytes_of_congr (read_loop_dest w s d e n).2

/-- C9 (peek is read without consumption).  For every state and length,
`ring_buffer_peek` returns the status `ring_buffer_read` returns from the same
state and, on success, the same `n` bytes, and it leaves the control block and
the storage (hence the data length) as they were; so a second peek of the same
length returns the same status and bytes, and so does a read of the same
length made right after the peek. -/
theorem peek_is_read_without_consumption (w : Nat) (s : ring_buffer_t)
    (d e : Nat → uint8_t) (n : Nat) :
    ((ring_buffer_peek w (some s) (some d) n).1 = (ring_buffer_read w (some s) (some e) n).1 ∧
      ((ring_buffer_peek w (some s) (some d) n).1 = RING_BUFFER_OK →
        ∃ p r, (ring_buffer_peek w (some s) (some d) n).2.2 = some p ∧
          (ring_buffer_read w (some s) (some e) n).2.2 = some r ∧
          bytes_of p n = bytes_of r n)) ∧
    ((ring_buffer_peek w (some s) (some d) n).2.1 = some s ∧
      (∀ s1, (ring_buffer_peek w (some s) (some d) n).2.1 = some s1 →
        data_length w s1 = data_length w s)) ∧
    ((ring_buffer_peek w (ring_buffer_peek w (some s) (some d) n).2.1 (some e) n).1
        = (ring_buffer_peek w (some s) (some d) n).1 ∧
      ((ring_buffer_peek w (some s) (some d) n).1 = RING_BUFFER_OK →
        ∃ p q, (ring_buffer_peek w (some s) (some d) n).2.2 = some p ∧
          (ring_buffer_peek w (ring_buffer_peek w (some s) (some d) n).2.1 (some e) n).2.2
            = some q ∧
          bytes_of p n = bytes_of q n)) ∧
    ((ring_buffer_read w (ring_buffer_peek w (some s) (some d) n).2.1 (some e) n).1
        = (ring_buffer_peek w (some s) (some d) n).1 ∧
      ((ring_buffer_peek w (some s) (some d) n).1 = RING_BUFFER_OK →
        ∃ p r, (ring_buffer_peek w (some s) (some d) n).2.2 = some p ∧
          (ring_buffer_read w (ring_buffer_peek w (some s) (some d) n).2.1 (some e) n).2.2
            = some r ∧
          bytes_of p n = bytes_of r n)) := by
  have hstate : (ring_buffer_peek w (some s) (some d) n).2.1 = some s := by
    unfold ring_buffer_peek
    simp only
    split_ifs <;> rfl
  have hpr := peek_eq_read w s d e n
  refine ⟨hpr, ⟨hstate, ?_⟩, ?_, ?_⟩
  · intro s1 h1
    rw [hstate] at h1
    cases h1
    rfl
  · rw [hstate]
    have hpp := peek_eq_read w s e e n
    refine ⟨by rw [hpp.1, ← hpr.1], ?_⟩
    intro hok
    obtain ⟨p, r, hp, hr, hbr⟩ := hpr.2 hok
    obtain ⟨q, r1, hq, hr1, hqr⟩ := hpp.2 (by rw [hpp.1, ← hpr.1]; exact hok)
    rw [hr] at hr1
    cases hr1
    exact ⟨p, q, hp, hq, by rw [hbr, hqr]⟩
  · rw [hstate]
    exact ⟨hpr.1.symm, hpr.2⟩


/-- Witness of `peek_is_read_without_consumption`: capacity 5 holding 3, 4, 5
from the tail at 2; a peek of three bytes succeeds and agrees with the read. -/
theorem peek_is_read_without_consumption_witness :
    (ring_buffer_peek 64 (some ⟨some (array_of [1, 2, 3, 4, 5]), 0, 2, 5, false⟩)
      (some (array_of [])) 3).1 = RING_BUFFER_OK ∧
    ∃ p r, (ring_buffer_peek 64 (some ⟨some (array_of [1, 2, 3, 4, 5]), 0, 2, 5, false⟩)
        (some (array_of [])) 3).2.2 = some p ∧
      (ring_buffer_read 64 (some ⟨some (array_of [1, 2, 3, 4, 5]), 0, 2, 5, false⟩)
        (some (array_of [9, 9, 9, 9])) 3).2.2 = some r ∧
      bytes_of p 3 = bytes_of r 3 :=
  ⟨by decide,
    (peek_is_read_without_consumption 64 ⟨some (array_of [1, 2, 3, 4, 5]), 0, 2, 5, false⟩
      (array_of []) (array_of [9, 9, 9, 9]) 3).1.2 (by decide)⟩

/-- Iterated `ring_buffer_put_byte` on a well-formed state with room for all
bytes: every call returns `RING_BUFFER_OK` and the final control block is the
one the loop of `ring_buffer_write` produces. -/
theorem put_byte_seq_eq {w : Nat} (d : Nat → uint8_t) {s : ring_buffer_t} (hwf : WellFormed s)
    (hb : Backed w s) (n : Nat) (hn : data_length w s + n ≤ s.length) :
    put_byte_seq w (some s) (bytes_of d n) =
      (List.replicate n RING_BUFFER_OK,
        some ((List.range n).foldl (ring_buffer_write_body w d) s)) := by
  induction n with
  | zero => rfl
  | succ k ih =>
    have ihk := ih (by omega)
    obtain ⟨iwf, ib, ic, _, _, iln⟩ := write_loop_spec d hwf hb k (by
      unfold data_length at hn; omega)
    have hnf := not_full_of_lt iwf ib.2 (by
      rw [ic, iln]; unfold data_length at hn; omega)
    unfold put_byte_seq bytes_of at ihk ⊢
    rw [List.range_succ, List.map_append, List.foldl_append, ihk, List.foldl_append]
    simp only [List.map_cons, List.map_nil, List.foldl_cons, List.foldl_nil]
    rw [put_byte_ok iwf ib hnf, List.replicate_succ']
    rfl

/-- C10 (filling to capacity).  On an empty well-formed buffer of capacity
`c`, a bulk write of exactly `c` bytes succeeds, and so do `c` consecutive
`ring_buffer_put_byte` calls; afterwards the data length is `c` and the buffer
is full, and one more `ring_buffer_put_byte` returns
`RING_BUFFER_NOT_ENOUGH_SPACE` and leaves the control block and the storage as
they were. -/
theorem fill_to_capacity (w : Nat) (s : ring_buffer_t) (hwf : WellFormed s) (hb : Backed w s)
    (hempty : ring_buffer_is_empty_inline s = true) (d : Nat → uint8_t) (b : uint8_t) :
    (∃ s1, ring_buffer_write w (some s) (some d) s.length = (RING_BUFFER_OK, some s1) ∧
      (∀ v, ring_buffer_get_data_length w (some s1) (some v)
        = (RING_BUFFER_OK, some s.length)) ∧
      (∀ v, ring_buffer_is_full (some s1) (some v) = (RING_BUFFER_OK, some true)) ∧
      ring_buffer_put_byte w (some s1) b = (RING_BUFFER_NOT_ENOUGH_SPACE, some s1)) ∧
    (∃ s1, put_byte_seq w (some s) (bytes_of d s.length)
        = (List.replicate s.length RING_BUFFER_OK, some s1) ∧
      (∀ v, ring_buffer_get_data_length w (some s1) (some v)
        = (RING_BUFFER_OK, some s.length)) ∧
      (∀ v, ring_buffer_is_full (some s1) (some v) = (RING_BUFFER_OK, some true)) ∧
      ring_buffer_put_byte w (some s1) b = (RING_BUFFER_NOT_ENOUGH_SPACE, some s1)) := by
  have h0 : data_length w s = 0 := (empty_iff hwf hb.2).1 hempty
  have hn : data_length w s + s.length ≤ s.length := by omega
  obtain ⟨iwf, ib, ic, _, _, iln⟩ := write_loop_spec d hwf hb s.length hn
  have hlen : ring_buffer_calculate_available_data w
      ((List.range s.length).foldl (ring_buffer_write_body w d) s) = s.length := by
    rw [ic]; unfold data_length at h0; omega
  have hfull : ((List.range s.length).foldl (ring_buffer_write_body w d) s).full = true :=
    (full_iff iwf ib.2).2 (by rw [hlen, iln])
  have key : (∀ v : Nat, ring_buffer_get_data_length w
        (some ((List.range s.length).foldl (ring_buffer_write_body w d) s)) (some v)
        = (RING_BUFFER_OK, some s.length)) ∧
      (∀ v : Bool, ring_buffer_is_full
        (some ((List.range s.length).foldl (ring_buffer_write_body w d) s)) (some v)
        = (RING_BUFFER_OK, some true)) ∧
      ring_buffer_put_byte w (some ((List.range s.length).foldl (ring_buffer_write_body w d) s)) b
        = (RING_BUFFER_NOT_ENOUGH_SPACE,
          some ((List.range s.length).foldl (ring_buffer_write_body w d) s)) := by
    refine ⟨?_, ?_, put_byte_full iwf ib hfull b⟩
    · intro v; simp [ring_buffer_get_data_length, hlen]
    · intro v; simp [ring_buffer_is_full, ring_buffer_is_full_inline, hfull]
  exact ⟨⟨_, write_ok hb d s.length ((free_space_lt_iff hwf hb.2 _).2 hn), key⟩,
    ⟨_, put_byte_seq_eq d hwf hb s.length hn, key⟩⟩

/-- Witness of `fill_to_capacity`: the scenario of `main.c`, capacity 128, the
bytes 0 to 127 put one at a time, then `0xAA` rejected. -/
theorem fill_to_capacity_witness :
    ∃ s1, put_byte_seq 64 (some ⟨some (array_of []), 0, 0, 128, false⟩)
        (bytes_of (fun i => Fin.ofNat i) 128)
        = (List.replicate 128 RING_BUFFER_OK, some s1) ∧
      (∀ v, ring_buffer_get_data_length 64 (some s1) (some v) = (RING_BUFFER_OK, some 128)) ∧
      (∀ v, ring_buffer_is_full (some s1) (some v) = (RING_BUFFER_OK, some true)) ∧
      ring_buffer_put_byte 64 (some s1) 0xAA = (RING_BUFFER_NOT_ENOUGH_SPACE, some s1) :=
  (fill_to_capacity 64 ⟨some (array_of []), 0, 0, 128, false⟩ (by decide) (by decide)
    (by decide) (fun i => Fin.ofNat i) 0xAA).2

/-! ## Claims: reset, construction and the round trip -/

theorem size_sub_zero {w a : Nat} (ha : a < 2 ^ w) : size_sub w a 0 = a := by
  simpa using size_sub_of_le (Nat.zero_le a) ha

theorem calculate_of_empty (w : Nat) (buffer : byte_ptr) (len : Nat) :
    ring_buffer_calculate_available_data w ⟨buffer, 0, 0, len, false⟩ = 0 := by
  simp [ring_buffer_calculate_available_data, size_sub]

/-- C11 (reset).  For every control block, whatever head, tail and full are,
`ring_buffer_reset` returns `RING_BUFFER_OK` and leaves head = tail = 0 and
full = false with the capacity and the storage as they were; in the new state
`ring_buffer_is_empty` reports true, the data length is 0 and the free space
is the capacity; a second reset changes nothing. -/
theorem reset_contract (w : Nat) (s : ring_buffer_t) (hl : s.length < 2 ^ w) :
    ∃ s1, ring_buffer_reset (some s) = (RING_BUFFER_OK, some s1) ∧
      s1.head = 0 ∧ s1.tail = 0 ∧ s1.full = false ∧
      s1.length = s.length ∧ s1.buffer = s.buffer ∧
      (∀ v, ring_buffer_is_empty (some s1) (some v) = (RING_BUFFER_OK, some true)) ∧
      (∀ v, ring_buffer_get_data_length w (some s1) (some v) = (RING_BUFFER_OK, some 0)) ∧
      (∀ v, ring_buffer_get_free_space w (some s1) (some v)
        = (RING_BUFFER_OK, some s.length)) ∧
      ring_buffer_reset (some s1) = (RING_BUFFER_OK, some s1) := by
  refine ⟨⟨s.buffer, 0, 0, s.length, false⟩, rfl, rfl, rfl, rfl, rfl, rfl, ?_, ?_, ?_, rfl⟩
  · intro v; rfl
  · intro v
    simp only [ring_buffer_get_data_length, calculate_of_empty]
  · intro v
    simp only [ring_buffer_get_free_space, calculate_of_empty, size_sub_zero hl]

/-- Witness of `reset_contract`: capacity 3, full, with head and tail at 2. -/
theorem reset_contract_witness :
    ∃ s1, ring_buffer_reset (some ⟨some (array_of [1, 2, 3]), 2, 2, 3, true⟩)
        = (RING_BUFFER_OK, some s1) ∧
      s1.head = 0 ∧ s1.tail = 0 ∧ s1.full = false ∧
      s1.length = 3 ∧ s1.buffer = some (array_of [1, 2, 3]) ∧
      (∀ v, ring_buffer_is_empty (some s1) (some v) = (RING_BUFFER_OK, some true)) ∧
      (∀ v, ring_buffer_get_data_length 64 (some s1) (some v) = (RING_BUFFER_OK, some 0)) ∧
      (∀ v, ring_buffer_get_free_space 64 (some s1) (some v) = (RING_BUFFER_OK, some 3)) ∧
      ring_buffer_reset (some s1) = (RING_BUFFER_OK, some s1) :=
  reset_contract 64 ⟨some (array_of [1, 2, 3]), 2, 2, 3, true⟩ (by decide)

/-- C12 (construction).  `ring_buffer_init` returns no handle and stores
`RING_BUFFER_ERROR_NULL_PTR` if the storage is absent or the size is 0 (and
also if the allocation of the control block fails); for a present storage, a
positive size and a successful allocation it stores `RING_BUFFER_OK` and
returns a handle with head = tail = 0, full = false, the given capacity and
the given storage, for which `ring_buffer_is_empty` reports true and the data
length is 0. -/
theorem init_contract (w : Nat) (buffer : byte_ptr) (size : Nat) (status : ring_buffer_status_t)
    (malloc : Option ring_buffer_t) :
    ((buffer = none ∨ size = 0) →
      ring_buffer_init buffer size (some status) malloc
        = (none, some RING_BUFFER_ERROR_NULL_PTR)) ∧
    (malloc = none →
      ring_buffer_init buffer size (some status) malloc
        = (none, some RING_BUFFER_ERROR_NULL_PTR)) ∧
    (∀ mem blk, buffer = some mem → 0 < size → malloc = some blk →
      ∃ s0, ring_buffer_init buffer size (some status) malloc = (some s0, some RING_BUFFER_OK) ∧
        s0.head = 0 ∧ s0.tail = 0 ∧ s0.full = false ∧ s0.length = size ∧
        s0.buffer = some mem ∧
        (∀ v, ring_buffer_is_empty (some s0) (some v) = (RING_BUFFER_OK, some true)) ∧
        (∀ v, ring_buffer_get_data_length w (some s0) (some v) = (RING_BUFFER_OK, some 0))) := by
  refine ⟨?_, ?_, ?_⟩
  · rintro (h | h)
    · simp [ring_buffer_init, h]
    · simp [ring_buffer_init, h]
  · intro h
    subst h
    unfold ring_buffer_init
    split_ifs <;> rfl
  · intro mem blk hb hs hm
    subst hb
    subst hm
    have hs0 : size ≠ 0 := by omega
    refine ⟨⟨some mem, 0, 0, size, false⟩, ?_, rfl, rfl, rfl, rfl, rfl, ?_, ?_⟩
    · simp [ring_buffer_init, hs0, ring_buffer_reset]
    · intro v; rfl
    · intro v
      simp only [ring_buffer_get_data_length, calculate_of_empty]

/-- Witness of `init_contract`: the call of `main.c`, a storage of 128 bytes;
whatever the allocated block holds, the handle is in the empty state. -/
theorem init_contract_witness :
    ∃ s0, ring_buffer_init (some (array_of [])) 128 (some RING_BUFFER_FULL)
        (some ⟨none, 7, 8, 9, true⟩) = (some s0, some RING_BUFFER_OK) ∧
      s0.head = 0 ∧ s0.tail = 0 ∧ s0.full = false ∧ s0.length = 128 ∧
      s0.buffer = some (array_of []) ∧
      (∀ v, ring_buffer_is_empty (some s0) (some v) = (RING_BUFFER_OK, some true)) ∧
      (∀ v, ring_buffer_get_data_length 64 (some s0) (some v) = (RING_BUFFER_OK, some 0)) :=
  (init_contract 64 (some (array_of [])) 128 RING_BUFFER_FULL (some ⟨none, 7, 8, 9, true⟩)).2.2
    (array_of []) ⟨none, 7, 8, 9, true⟩ rfl (by decide) rfl

/-- A peek of available bytes succeeds, returns the first bytes of the
contents and leaves the control block as it was. -/
theorem peek_success {w : Nat} {s : ring_buffer_t} (hwf : WellFormed s) (hb : Backed w s)
    (d : Nat → uint8_t) (n : Nat) (hn : n ≤ data_length w s) :
    ∃ out, ring_buffer_peek w (some s) (some d) n = (RING_BUFFER_OK, some s, some out) ∧
      bytes_of out n = (contents w s).take n := by
  obtain ⟨_, _, ict, _, _, _⟩ := read_loop_spec d hwf hb.2 n hn
  obtain ⟨h1, _⟩ := take_drop_of_append n ict (by simp)
  refine ⟨_, peek_ok hb d n (by omega), ?_⟩
  rw [(peek_loop_eq w d s n).2.1, h1]
  rfl

/-- C13 (write, peek, read round trip).  On an empty well-formed buffer of
capacity `c` (head == tail at any index, full false) and for `n ≤ c` bytes
`d`: `ring_buffer_write` succeeds and the data length becomes `n`; then
`ring_buffer_peek` of `n` bytes returns `d` and leaves the control block, so
the data length, as it was; then `ring_buffer_read` of `n` bytes returns `d`,
after which the data length is 0 and `ring_buffer_is_empty` reports true. -/
theorem write_peek_read_round_trip (w : Nat) (s : ring_buffer_t) (hwf : WellFormed s)
    (hb : Backed w s) (hempty : s.full = false ∧ s.head = s.tail) (d : Nat → uint8_t) (n : Nat)
    (hn : n ≤ s.length) (p r : Nat → uint8_t) :
    ∃ s1 pout s2 rout,
      ring_buffer_write w (some s) (some d) n = (RING_BUFFER_OK, some s1) ∧
      (∀ v, ring_buffer_get_data_length w (some s1) (some v) = (RING_BUFFER_OK, some n)) ∧
      ring_buffer_peek w (some s1) (some p) n = (RING_BUFFER_OK, some s1, some pout) ∧
      bytes_of pout n = bytes_of d n ∧
      ring_buffer_read w (some s1) (some r) n = (RING_BUFFER_OK, some s2, some rout) ∧
      bytes_of rout n = bytes_of d n ∧
      (∀ v, ring_buffer_get_data_length w (some s2) (some v) = (RING_BUFFER_OK, some 0)) ∧
      (∀ v, ring_buffer_is_empty (some s2) (some v) = (RING_BUFFER_OK, some true)) := by
  have he : ring_buffer_is_empty_inline s = true := by
    simp [ring_buffer_is_empty_inline, hempty.1, hempty.2]
  have h0 : data_length w s = 0 := (empty_iff hwf hb.2).1 he
  have hc0 : contents w s = [] := by
    apply List.eq_nil_of_length_eq_zero
    rw [contents_length, h0]
  obtain ⟨s1, hw, wf1, b1, d1, c1, _, _⟩ := write_success hwf hb d n (by omega)
  rw [h0, Nat.zero_add] at d1
  rw [hc0, List.nil_append] at c1
  have htake : (contents w s1).take n = bytes_of d n := by
    rw [c1]
    exact List.take_of_length_le (by rw [bytes_of_length])
  obtain ⟨pout, hp, po⟩ := peek_success wf1 b1 p n (by omega)
  obtain ⟨s2, rout, hr, wf2, b2, d2, ro, _, _, _⟩ := read_success wf1 b1 r n (by omega)
  have hd2 : data_length w s2 = 0 := by omega
  refine ⟨s1, pout, s2, rout, hw, ?_, hp, by rw [po, htake], hr, by rw [ro, htake], ?_, ?_⟩
  · intro v
    simp only [ring_buffer_get_data_length]
    unfold data_length at d1
    rw [d1]
  · intro v
    simp only [ring_buffer_get_data_length]
    unfold data_length at hd2
    rw [hd2]
  · intro v
    simp only [ring_buffer_is_empty]
    rw [(empty_iff wf2 b2.2).2 hd2]

/-- Witness of `write_peek_read_round_trip`: the scenario of `main.c`,
capacity 128 and the bytes `0x01, 0x02, 0x03`. -/
theorem write_peek_read_round_trip_witness :
    ∃ s1 pout s2 rout,
      ring_buffer_write 64 (some ⟨some (array_of []), 0, 0, 128, false⟩)
        (some (array_of [0x01, 0x02, 0x03])) 3 = (RING_BUFFER_OK, some s1) ∧
      (∀ v, ring_buffer_get_data_length 64 (some s1) (some v) = (RING_BUFFER_OK, some 3)) ∧
      ring_buffer_peek 64 (some s1) (some (array_of [])) 3 = (RING_BUFFER_OK, some s1, some pout) ∧
      bytes_of pout 3 = bytes_of (array_of [0x01, 0x02, 0x03]) 3 ∧
      ring_buffer_read 64 (some s1) (some (array_of [])) 3 = (RING_BUFFER_OK, some s2, some rout) ∧
      bytes_of rout 3 = bytes_of (array_of [0x01, 0x02, 0x03]) 3 ∧
      (∀ v, ring_buffer_get_data_length 64 (some s2) (some v) = (RING_BUFFER_OK, some 0)) ∧
      (∀ v, ring_buffer_is_empty (some s2) (some v) = (RING_BUFFER_OK, some true)) :=
  write_peek_read_round_trip 64 ⟨some (array_of []), 0, 0, 128, false⟩ (by decide) (by decide)
    (by decide) (array_of [0x01, 0x02, 0x03]) 3 (by decide) (array_of []) (array_of [])

/-! ## Claims: null checks and the enqueue path -/

/-- C14 (null-reference checks come first).  Every public operation that
takes a handle returns `RING_BUFFER_ERROR_NULL_PTR` when the handle is absent,
when a required input or output pointer is absent, and (for the operations
that touch the storage) when the storage pointer of the control block is
absent, whatever the other arguments and the occupancy are; the control block
and the output variables are then left as they were. -/
theorem null_checks_first (w : Nat) (h : Option ring_buffer_t) (vb : Option Bool)
    (vn : Option Nat) (b : uint8_t) (o : Option uint8_t) (d : byte_ptr) (n : Nat)
    (hd tl len : Nat) (fl : Bool) :
    (ring_buffer_is_empty none vb = (RING_BUFFER_ERROR_NULL_PTR, vb) ∧
      ring_buffer_is_full none vb = (RING_BUFFER_ERROR_NULL_PTR, vb) ∧
      ring_buffer_free none = (RING_BUFFER_ERROR_NULL_PTR, none) ∧
      ring_buffer_reset none = (RING_BUFFER_ERROR_NULL_PTR, none) ∧
      ring_buffer_get_data_length w none vn = (RING_BUFFER_ERROR_NULL_PTR, vn) ∧
      ring_buffer_get_capacity none vn = (RING_BUFFER_ERROR_NULL_PTR, vn) ∧
      ring_buffer_get_free_space w none vn = (RING_BUFFER_ERROR_NULL_PTR, vn) ∧
      ring_buffer_put_byte w none b = (RING_BUFFER_ERROR_NULL_PTR, none) ∧
      ring_buffer_get_byte w none o = (RING_BUFFER_ERROR_NULL_PTR, none, o) ∧
      ring_buffer_write w none d n = (RING_BUFFER_ERROR_NULL_PTR, none) ∧
      ring_buffer_read w none d n = (RING_BUFFER_ERROR_NULL_PTR, none, d) ∧
      ring_buffer_peek w none d n = (RING_BUFFER_ERROR_NULL_PTR, none, d)) ∧
    (ring_buffer_is_empty h none = (RING_BUFFER_ERROR_NULL_PTR, none) ∧
      ring_buffer_is_full h none = (RING_BUFFER_ERROR_NULL_PTR, none) ∧
      ring_buffer_get_data_length w h none = (RING_BUFFER_ERROR_NULL_PTR, none) ∧
      ring_buffer_get_capacity h none = (RING_BUFFER_ERROR_NULL_PTR, none) ∧
      ring_buffer_get_free_space w h none = (RING_BUFFER_ERROR_NULL_PTR, none) ∧
      ring_buffer_get_byte w h none = (RING_BUFFER_ERROR_NULL_PTR, h, none) ∧
      ring_buffer_write w h none n = (RING_BUFFER_ERROR_NULL_PTR, h) ∧
      ring_buffer_read w h none n = (RING_BUFFER_ERROR_NULL_PTR, h, none) ∧
      ring_buffer_peek w h none n = (RING_BUFFER_ERROR_NULL_PTR, h, none)) ∧
    (ring_buffer_put_byte w (some ⟨none, hd, tl, len, fl⟩) b
        = (RING_BUFFER_ERROR_NULL_PTR, some ⟨none, hd, tl, len, fl⟩) ∧
      ring_buffer_get_byte w (some ⟨none, hd, tl, len, fl⟩) o
        = (RING_BUFFER_ERROR_NULL_PTR, some ⟨none, hd, tl, len, fl⟩, o) ∧
      ring_buffer_write w (some ⟨none, hd, tl, len, fl⟩) d n
        = (RING_BUFFER_ERROR_NULL_PTR, some ⟨none, hd, tl, len, fl⟩) ∧
      ring_buffer_read w (some ⟨none, hd, tl, len, fl⟩) d n
        = (RING_BUFFER_ERROR_NULL_PTR, some ⟨none, hd, tl, len, fl⟩, d) ∧
      ring_buffer_peek w (some ⟨none, hd, tl, len, fl⟩) d n
        = (RING_BUFFER_ERROR_NULL_PTR, some ⟨none, hd, tl, len, fl⟩, d)) := by
  refine ⟨⟨?_, ?_, rfl, rfl, ?_, ?_, ?_, rfl, ?_, ?_, ?_, ?_⟩,
    ⟨?_, ?_, ?_, ?_, ?_, ?_, ?_, ?_, ?_⟩, ⟨rfl, ?_, ?_, ?_, ?_⟩⟩
  · cases vb <;> rfl
  · cases vb <;> rfl
  · cases vn <;> rfl
  · cases vn <;> rfl
  · cases vn <;> rfl
  · cases o <;> rfl
  · cases d <;> rfl
  · cases d <;> rfl
  · cases d <;> rfl
  · cases h <;> rfl
  · cases h <;> rfl
  · cases h <;> rfl
  · cases h <;> rfl
  · cases h <;> rfl
  · cases h <;> rfl
  · cases h <;> rfl
  · cases h <;> rfl
  · cases h <;> rfl
  · cases o <;> rfl
  · cases d <;> rfl
  · cases d <;> rfl
  · cases d <;> rfl

/-- The control block at the start of iteration `i` of the loop of
`ring_buffer_write` is well-formed and not full when the `n > i` bytes fit. -/
theorem write_loop_not_full {w : Nat} (d : Nat → uint8_t) {s : ring_buffer_t}
    (hwf : WellFormed s) (hb : Backed w s) (n : Nat) (hn : data_length w s + n ≤ s.length)
    (i : Nat) (hi : i < n) :
    ((List.range i).foldl (ring_buffer_write_body w d) s).full = false := by
  unfold data_length at hn
  obtain ⟨iwf, ib, ic, _, _, iln⟩ := write_loop_spec d hwf hb i (by omega)
  exact not_full_of_lt iwf ib.2 (by rw [ic, iln]; omega)

theorem contents_getElem? (w : Nat) (s : ring_buffer_t) (j : Nat) (hj : j < data_length w s) :
    (contents w s)[j]? = some (buffer_load s ((s.tail + j) % s.length)) := by
  unfold contents
  rw [List.getElem?_map, List.getElem?_range hj]
  rfl

/-- An enqueue that appends to the contents and keeps tail and capacity leaves
every occupied storage byte as it was. -/
theorem occupied_unchanged {w : Nat} {s s1 : ring_buffer_t} {l : List uint8_t}
    (hc : contents w s1 = contents w s ++ l) (ht : s1.tail = s.tail)
    (hlen : s1.length = s.length) (j : Nat) (hj : j < data_length w s) :
    buffer_load s1 ((s.tail + j) % s.length) = buffer_load s ((s.tail + j) % s.length) := by
  have h1 : j < data_length w s1 := by
    have := congrArg List.length hc
    rw [List.length_append, contents_length, contents_length] at this
    omega
  have e1 := contents_getElem? w s1 j h1
  have e0 := contents_getElem? w s j hj
  rw [hc, List.getElem?_append_left (by rw [contents_length]; exact hj), e0, ht, hlen] at e1
  exact (Option.some.inj e1).symm

/-- C15 (the tail-forcing branch is unreachable).  On a well-formed state,
every call of `ring_buffer_put_byte` and of `ring_buffer_write`, whatever it
returns, leaves the tail as it was and every occupied storage byte with its
value.  A call that does not return `RING_BUFFER_OK` leaves the whole control
block as it was (`advance_head_pointer` is not called); a call that returns
`RING_BUFFER_OK` calls `advance_head_pointer` only on control blocks whose
full flag is false (in the loop of `ring_buffer_write`: at every iteration,
each of which takes the control block of the previous one).  A call that
passes its capacity check returns `RING_BUFFER_OK`. -/
theorem tail_forcing_unreachable (w : Nat) (s : ring_buffer_t) (hwf : WellFormed s)
    (hb : Backed w s) :
    (∀ b, ∃ s1, (ring_buffer_put_byte w (some s) b).2 = some s1 ∧
      s1.tail = s.tail ∧
      (∀ j, j < data_length w s →
        buffer_load s1 ((s.tail + j) % s.length) = buffer_load s ((s.tail + j) % s.length)) ∧
      ((ring_buffer_put_byte w (some s) b).1 = RING_BUFFER_OK →
        s.full = false ∧ (buffer_store s s.head b).full = false ∧
        s1 = advance_head_pointer w (buffer_store s s.head b)) ∧
      ((ring_buffer_put_byte w (some s) b).1 ≠ RING_BUFFER_OK → s1 = s)) ∧
    (∀ d n, ∃ s1, (ring_buffer_write w (some s) d n).2 = some s1 ∧
      s1.tail = s.tail ∧
      (∀ j, j < data_length w s →
        buffer_load s1 ((s.tail + j) % s.length) = buffer_load s ((s.tail + j) % s.length)) ∧
      ((ring_buffer_write w (some s) d n).1 = RING_BUFFER_OK →
        ∃ src, d = some src ∧
          s1 = (List.range n).foldl (ring_buffer_write_body w src) s ∧
          ∀ i, i < n →
            (List.range (i + 1)).foldl (ring_buffer_write_body w src) s
              = advance_head_pointer w
                (buffer_store ((List.range i).foldl (ring_buffer_write_body w src) s)
                  ((List.range i).foldl (ring_buffer_write_body w src) s).head (src i)) ∧
            ((List.range i).foldl (ring_buffer_write_body w src) s).full = false ∧
            (buffer_store ((List.range i).foldl (ring_buffer_write_body w src) s)
              ((List.range i).foldl (ring_buffer_write_body w src) s).head (src i)).full
              = false) ∧
      ((ring_buffer_write w (some s) d n).1 ≠ RING_BUFFER_OK → s1 = s)) ∧
    (∀ b, free_space w s ≠ 0 →
      (buffer_store s s.head b).full = false ∧
      ∃ s1, ring_buffer_put_byte w (some s) b = (RING_BUFFER_OK, some s1) ∧
        s1.tail = s.tail ∧
        ∀ j, j < data_length w s →
          buffer_load s1 ((s.tail + j) % s.length) = buffer_load s ((s.tail + j) % s.length)) ∧
    (∀ d n, ¬ free_space w s < n →
      (∀ i, i < n →
        (List.range (i + 1)).foldl (ring_buffer_write_body w d) s
          = advance_head_pointer w
            (buffer_store ((List.range i).foldl (ring_buffer_write_body w d) s)
              ((List.range i).foldl (ring_buffer_write_body w d) s).head (d i)) ∧
        (buffer_store ((List.range i).foldl (ring_buffer_write_body w d) s)
          ((List.range i).foldl (ring_buffer_write_body w d) s).head (d i)).full = false) ∧
      ∃ s1, ring_buffer_write w (some s) (some d) n = (RING_BUFFER_OK, some s1) ∧
        s1.tail = s.tail ∧
        ∀ j, j < data_length w s →
          buffer_load s1 ((s.tail + j) % s.length) = buffer_load s ((s.tail + j) % s.length)) := by
  refine ⟨?_, ?_, ?_, ?_⟩
  · intro b
    cases hfull : s.full with
    | true =>
      rw [put_byte_full hwf hb hfull]
      exact ⟨s, rfl, rfl, fun _ _ => rfl, (fun h => by cases h), fun _ => rfl⟩
    | false =>
      rw [put_byte_ok hwf hb hfull]
      refine ⟨_, rfl, ?_, ?_, fun _ => ⟨rfl, hfull, rfl⟩, fun h => absurd rfl h⟩
      · rw [write_body_eq hwf hb.2 hfull]
      · exact occupied_unchanged (write_body_contents hwf hb hfull b)
          (by rw [write_body_eq hwf hb.2 hfull]) (by rw [write_body_eq hwf hb.2 hfull])
  · intro d n
    cases d with
    | none =>
      exact ⟨s, rfl, rfl, fun _ _ => rfl, (fun h => by cases h), fun _ => rfl⟩
    | some src =>
      by_cases hfree : free_space w s < n
      · rw [write_fail hb src n hfree]
        exact ⟨s, rfl, rfl, fun _ _ => rfl, (fun h => by cases h), fun _ => rfl⟩
      · have hn := (free_space_lt_iff hwf hb.2 n).1 hfree
        obtain ⟨_, _, _, c1, t1, l1⟩ := write_loop_spec src hwf hb n hn
        rw [write_ok hb src n hfree]
        refine ⟨_, rfl, t1, occupied_unchanged c1 t1 l1, ?_, fun h => absurd rfl h⟩
        intro _
        refine ⟨src, rfl, rfl, ?_⟩
        intro i hi
        have hnf := write_loop_not_full src hwf hb n hn i hi
        refine ⟨?_, hnf, hnf⟩
        rw [List.range_succ, List.foldl_append]
        rfl
  · intro b hfree
    have hfull : s.full = false := by
      cases hf : s.full with
      | false => rfl
      | true => exact absurd ((free_space_zero_iff hwf hb.2).2 hf) hfree
    refine ⟨hfull, _, put_byte_ok hwf hb hfull b, ?_, ?_⟩
    · rw [write_body_eq hwf hb.2 hfull]
    · exact occupied_unchanged (write_body_contents hwf hb hfull b)
        (by rw [write_body_eq hwf hb.2 hfull]) (by rw [write_body_eq hwf hb.2 hfull])
  · intro d n hfree
    have hn := (free_space_lt_iff hwf hb.2 n).1 hfree
    obtain ⟨s1, hw, _, _, _, c1, t1, l1⟩ := write_success hwf hb d n hn
    refine ⟨?_, s1, hw, t1, occupied_unchanged c1 t1 l1⟩
    intro i hi
    refine ⟨?_, write_loop_not_full d hwf hb n hn i hi⟩
    rw [List.range_succ, List.foldl_append]
    rfl

/-- Witness of `tail_forcing_unreachable`: first a full block of capacity 3
with head and tail at 1, on which `ring_buffer_put_byte` returns
`RING_BUFFER_NOT_ENOUGH_SPACE` and leaves the tail at 1 and the block as it
was; then capacity 5 holding 3, 4, 5 from the tail at 2, where a write of two
bytes fills the buffer without moving the tail. -/
theorem tail_forcing_unreachable_witness :
    ((ring_buffer_put_byte 64 (some ⟨some (array_of [1, 2, 3]), 1, 1, 3, true⟩) 9).1
        = RING_BUFFER_NOT_ENOUGH_SPACE ∧
      ∃ s1, (ring_buffer_put_byte 64 (some ⟨some (array_of [1, 2, 3]), 1, 1, 3, true⟩) 9).2
          = some s1 ∧
        s1.tail = 1 ∧
        (∀ j, j < data_length 64 ⟨some (array_of [1, 2, 3]), 1, 1, 3, true⟩ →
          buffer_load s1 ((1 + j) % 3)
            = buffer_load ⟨some (array_of [1, 2, 3]), 1, 1, 3, true⟩ ((1 + j) % 3)) ∧
        ((ring_buffer_put_byte 64 (some ⟨some (array_of [1, 2, 3]), 1, 1, 3, true⟩) 9).1
            = RING_BUFFER_OK →
          (⟨some (array_of [1, 2, 3]), 1, 1, 3, true⟩ : ring_buffer_t).full = false ∧
          (buffer_store ⟨some (array_of [1, 2, 3]), 1, 1, 3, true⟩ 1 9).full = false ∧
          s1 = advance_head_pointer 64
            (buffer_store ⟨some (array_of [1, 2, 3]), 1, 1, 3, true⟩ 1 9)) ∧
        ((ring_buffer_put_byte 64 (some ⟨some (array_of [1, 2, 3]), 1, 1, 3, true⟩) 9).1
            ≠ RING_BUFFER_OK →
          s1 = ⟨some (array_of [1, 2, 3]), 1, 1, 3, true⟩)) ∧
    ((∀ i, i < 2 →
      (List.range (i + 1)).foldl (ring_buffer_write_body 64 (array_of [6, 7]))
          ⟨some (array_of [1, 2, 3, 4, 5]), 0, 2, 5, false⟩
        = advance_head_pointer 64
          (buffer_store ((List.range i).foldl (ring_buffer_write_body 64 (array_of [6, 7]))
              ⟨some (array_of [1, 2, 3, 4, 5]), 0, 2, 5, false⟩)
            ((List.range i).foldl (ring_buffer_write_body 64 (array_of [6, 7]))
              ⟨some (array_of [1, 2, 3, 4, 5]), 0, 2, 5, false⟩).head
            (array_of [6, 7] i)) ∧
      (buffer_store ((List.range i).foldl (ring_buffer_write_body 64 (array_of [6, 7]))
          ⟨some (array_of [1, 2, 3, 4, 5]), 0, 2, 5, false⟩)
        ((List.range i).foldl (ring_buffer_write_body 64 (array_of [6, 7]))
          ⟨some (array_of [1, 2, 3, 4, 5]), 0, 2, 5, false⟩).head
        (array_of [6, 7] i)).full = false) ∧
    ∃ s1, ring_buffer_write 64 (some ⟨some (array_of [1, 2, 3, 4, 5]), 0, 2, 5, false⟩)
        (some (array_of [6, 7])) 2 = (RING_BUFFER_OK, some s1) ∧
      s1.tail = 2 ∧
      ∀ j, j < data_length 64 ⟨some (array_of [1, 2, 3, 4, 5]), 0, 2, 5, false⟩ →
        buffer_load s1 ((2 + j) % 5)
          = buffer_load ⟨some (array_of [1, 2, 3, 4, 5]), 0, 2, 5, false⟩ ((2 + j) % 5)) :=
  ⟨⟨by decide,
      (tail_forcing_unreachable 64 ⟨some (array_of [1, 2, 3]), 1, 1, 3, true⟩ (by decide)
        (by decide)).1 9⟩,
    (tail_forcing_unreachable 64 ⟨some (array_of [1, 2, 3, 4, 5]), 0, 2, 5, false⟩ (by decide)
      (by decide)).2.2.2 (array_of [6, 7]) 2 (by decide)⟩

/-- C16 (bulk write is iterated single-byte enqueue).  On a well-formed state
and for `n` bytes that fit in the free space, `ring_buffer_write` returns
`RING_BUFFER_OK` and leaves exactly the control block and storage that
`ring_buffer_put_byte` on `data[0]`, ..., `data[n-1]` in order leaves, each of
these calls returning `RING_BUFFER_OK`. -/
theorem write_eq_iterated_put_byte (w : Nat) (s : ring_buffer_t) (hwf : WellFormed s)
    (hb : Backed w s) (d : Nat → uint8_t) (n : Nat) (hn : n ≤ free_space w s) :
    ∃ s1, ring_buffer_write w (some s) (some d) n = (RING_BUFFER_OK, some s1) ∧
      put_byte_seq w (some s) (bytes_of d n) = (List.replicate n RING_BUFFER_OK, some s1) := by
  have hfit := (free_space_lt_iff hwf hb.2 n).1 (by omega)
  exact ⟨_, write_ok hb d n (by omega), put_byte_seq_eq d hwf hb n hfit⟩

/-- Witness of `write_eq_iterated_put_byte`: capacity 5 holding three bytes
from the tail at 2, two bytes written across the wrap-around. -/
theorem write_eq_iterated_put_byte_witness :
    ∃ s1, ring_buffer_write 64 (some ⟨some (array_of [1, 2, 3, 4, 5]), 0, 2, 5, false⟩)
        (some (array_of [6, 7])) 2 = (RING_BUFFER_OK, some s1) ∧
      put_byte_seq 64 (some ⟨some (array_of [1, 2, 3, 4, 5]), 0, 2, 5, false⟩)
        (bytes_of (array_of [6, 7]) 2) = (List.replicate 2 RING_BUFFER_OK, some s1) :=
  write_eq_iterated_put_byte 64 ⟨some (array_of [1, 2, 3, 4, 5]), 0, 2, 5, false⟩ (by decide)
    (by decide) (array_of [6, 7]) 2 (by decide)

/-! ## Claims: the dequeue path, accounting and machine arithmetic -/

theorem bytes_of_update_succ (d : Nat → uint8_t) (k : Nat) (v : uint8_t) :
    bytes_of (Function.update d k v) (k + 1) = bytes_of d k ++ [v] := by
  unfold bytes_of
  rw [List.range_succ, List.map_append]
  simp only [List.map_cons, List.map_nil, Function.update_same]
  congr 1
  apply List.map_congr_left
  intro i hi
  rw [List.mem_range] at hi
  exact Function.update_noteq (by omega) _ _

/-- Iterated `ring_buffer_get_byte` on a well-formed state that holds at least
`n` bytes: every call returns `RING_BUFFER_OK`, and the final control block
and the bytes are those of the loop of `ring_buffer_read`. -/
theorem get_byte_seq_eq {w : Nat} (d : Nat → uint8_t) {s : ring_buffer_t} (hwf : WellFormed s)
    (hb : Backed w s) (n : Nat) (hn : n ≤ data_length w s) :
    get_byte_seq w (some s) n =
      (List.replicate n RING_BUFFER_OK,
        some ((List.range n).foldl (ring_buffer_read_body w) (s, d)).1,
        bytes_of ((List.range n).foldl (ring_buffer_read_body w) (s, d)).2 n) := by
  induction n with
  | zero => rfl
  | succ k ih =>
    have ihk := ih (by omega)
    unfold data_length at hn
    obtain ⟨iwf, ic, _, _, iln, ibf⟩ := read_loop_spec d hwf hb.2 k (by omega)
    have ib : Backed w ((List.range k).foldl (ring_buffer_read_body w) (s, d)).1 :=
      ⟨by rw [ibf]; exact hb.1, by rw [iln]; exact hb.2⟩
    have he : ring_buffer_is_empty_inline
        ((List.range k).foldl (ring_buffer_read_body w) (s, d)).1 = false := by
      cases he : ring_buffer_is_empty_inline
          ((List.range k).foldl (ring_buffer_read_body w) (s, d)).1 with
      | false => rfl
      | true => have := (empty_iff iwf ib.2).1 he; omega
    unfold get_byte_seq at ihk ⊢
    rw [List.range_succ, List.foldl_append, ihk, List.foldl_append]
    simp only [List.foldl_cons, List.foldl_nil]
    rw [get_byte_ok ib he, List.replicate_succ']
    simp only [ring_buffer_read_body, Option.toList_some, bytes_of_update_succ]

/-- C17 (bulk read is iterated single-byte dequeue).  On a well-formed state
that holds at least `n` bytes, `ring_buffer_read` returns `RING_BUFFER_OK`
with exactly the bytes, oldest first, and the final control block that `n`
consecutive `ring_buffer_get_byte` calls give, each of these calls returning
`RING_BUFFER_OK`. -/
theorem read_eq_iterated_get_byte (w : Nat) (s : ring_buffer_t) (hwf : WellFormed s)
    (hb : Backed w s) (d : Nat → uint8_t) (n : Nat) (hn : n ≤ data_length w s) :
    ∃ s1 out, ring_buffer_read w (some s) (some d) n = (RING_BUFFER_OK, some s1, some out) ∧
      get_byte_seq w (some s) n = (List.replicate n RING_BUFFER_OK, some s1, bytes_of out n) ∧
      bytes_of out n = (contents w s).take n := by
  obtain ⟨_, _, ict, _, _, _⟩ := read_loop_spec d hwf hb.2 n hn
  obtain ⟨h1, _⟩ := take_drop_of_append n ict (by simp)
  exact ⟨_, _, read_ok hb d n (by omega), get_byte_seq_eq d hwf hb n hn, h1.symm⟩

/-- Witness of `read_eq_iterated_get_byte`: capacity 5, full, with the tail at
3; a read of four bytes crosses the wrap-around. -/
theorem read_eq_iterated_get_byte_witness :
    ∃ s1 out, ring_buffer_read 64 (some ⟨some (array_of [1, 2, 3, 4, 5]), 3, 3, 5, true⟩)
        (some (array_of [])) 4 = (RING_BUFFER_OK, some s1, some out) ∧
      get_byte_seq 64 (some ⟨some (array_of [1, 2, 3, 4, 5]), 3, 3, 5, true⟩) 4
        = (List.replicate 4 RING_BUFFER_OK, some s1, bytes_of out 4) ∧
      bytes_of out 4 = (contents 64 ⟨some (array_of [1, 2, 3, 4, 5]), 3, 3, 5, true⟩).take 4 :=
  read_eq_iterated_get_byte 64 ⟨some (array_of [1, 2, 3, 4, 5]), 3, 3, 5, true⟩ (by decide)
    (by decide) (array_of []) 4 (by decide)

/-- C18 (occupancy accounting).  On a well-formed state a successful
`ring_buffer_put_byte` raises the data length by 1 and a successful
`ring_buffer_write` of `n` bytes by `n`; a successful `ring_buffer_get_byte`
lowers it by 1 and a successful `ring_buffer_read` of `n` bytes by `n`; a call
that does not return `RING_BUFFER_OK`, and every `ring_buffer_peek`, leaves
the control block as it was.  The data length is 0 after an init or a reset,
so after any calls without a reset it is the number of bytes enqueued minus
the number dequeued since then. -/
theorem occupancy_accounting (w : Nat) (s : ring_buffer_t) (hwf : WellFormed s)
    (hb : Backed w s) :
    (∀ b,
      ((ring_buffer_put_byte w (some s) b).1 = RING_BUFFER_OK →
        ∃ s1, (ring_buffer_put_byte w (some s) b).2 = some s1 ∧
          data_length w s1 = data_length w s + 1) ∧
      ((ring_buffer_put_byte w (some s) b).1 ≠ RING_BUFFER_OK →
        (ring_buffer_put_byte w (some s) b).2 = some s)) ∧
    (∀ d n,
      ((ring_buffer_write w (some s) d n).1 = RING_BUFFER_OK →
        ∃ s1, (ring_buffer_write w (some s) d n).2 = some s1 ∧
          data_length w s1 = data_length w s + n) ∧
      ((ring_buffer_write w (some s) d n).1 ≠ RING_BUFFER_OK →
        (ring_buffer_write w (some s) d n).2 = some s)) ∧
    (∀ o,
      ((ring_buffer_get_byte w (some s) o).1 = RING_BUFFER_OK →
        ∃ s1, (ring_buffer_get_byte w (some s) o).2.1 = some s1 ∧
          data_length w s1 + 1 = data_length w s) ∧
      ((ring_buffer_get_byte w (some s) o).1 ≠ RING_BUFFER_OK →
        (ring_buffer_get_byte w (some s) o).2.1 = some s)) ∧
    (∀ d n,
      ((ring_buffer_read w (some s) d n).1 = RING_BUFFER_OK →
        ∃ s1, (ring_buffer_read w (some s) d n).2.1 = some s1 ∧
          data_length w s1 + n = data_length w s) ∧
      ((ring_buffer_read w (some s) d n).1 ≠ RING_BUFFER_OK →
        (ring_buffer_read w (some s) d n).2.1 = some s)) ∧
    (∀ d n, (ring_buffer_peek w (some s) d n).2.1 = some s) ∧
    (∀ s1, (ring_buffer_reset (some s)).2 = some s1 → data_length w s1 = 0) ∧
    (∀ buffer size status malloc s0,
      (ring_buffer_init buffer size status malloc).1 = some s0 → data_length w s0 = 0) ∧
    (∀ calls, (∀ c ∈ calls, c.is_reset = false) →
      ∃ s1, ring_buffer_run w calls (some s) = some s1 ∧
        data_length w s1 + (ring_buffer_dequeued w calls (some s)).length
          = data_length w s + (ring_buffer_enqueued w calls (some s)).length) := by
  have hl := hb.2
  refine ⟨?_, ?_, ?_, ?_, ?_, ?_, ?_, ?_⟩
  · intro b
    cases hfull : s.full with
    | true => simp [put_byte_full hwf hb hfull]
    | false =>
      rw [put_byte_ok hwf hb hfull]
      exact ⟨fun _ => ⟨_, rfl, write_body_calculate hwf hl hfull b⟩, fun h => absurd rfl h⟩
  · intro d n
    cases d with
    | none => simp [ring_buffer_write]
    | some d =>
      by_cases hfree : free_space w s < n
      · simp [write_fail hb d n hfree]
      · obtain ⟨s1, hw, _, _, d1, _⟩ :=
          write_success hwf hb d n ((free_space_lt_iff hwf hl n).1 hfree)
        rw [hw]
        exact ⟨fun _ => ⟨s1, rfl, d1⟩, fun h => absurd rfl h⟩
  · intro o
    cases o with
    | none => simp [ring_buffer_get_byte]
    | some o =>
      cases he : ring_buffer_is_empty_inline s with
      | true => simp [get_byte_empty hb he]
      | false =>
        have hne : ring_buffer_calculate_available_data w s ≠ 0 := by
          intro h; have := (empty_iff hwf hl).2 h; simp [he] at this
        rw [get_byte_ok hb he]
        exact ⟨fun _ => ⟨_, rfl, retreat_calculate hwf hl hne⟩, fun h => absurd rfl h⟩
  · intro d n
    cases d with
    | none => simp [ring_buffer_read]
    | some d =>
      by_cases hdat : data_length w s < n
      · simp [read_fail hb d n hdat]
      · obtain ⟨s1, out, hr, _, _, d1, _⟩ := read_success hwf hb d n (by omega)
        rw [hr]
        exact ⟨fun _ => ⟨s1, rfl, d1⟩, fun h => absurd rfl h⟩
  · intro d n
    cases d with
    | none => simp [ring_buffer_peek]
    | some d =>
      by_cases hdat : data_length w s < n
      · simp [peek_fail hb d n hdat]
      · simp [peek_ok hb d n hdat]
  · intro s1 h
    simp only [ring_buffer_reset, Option.some.injEq] at h
    subst h
    exact calculate_of_empty w _ _
  · intro buffer size status malloc s0 h
    obtain ⟨_, _, rfl⟩ := init_eq h
    exact calculate_of_empty w _ _
  · intro calls hall
    obtain ⟨s1, h1, _, _, _, hc⟩ := run_spec calls hwf hb
    refine ⟨s1, h1, ?_⟩
    have := congrArg List.length (hc hall)
    rw [List.length_append, List.length_append, contents_length, contents_length] at this
    omega

/-- Witness of `occupancy_accounting`: capacity 5 holding three bytes; after a
write of two bytes, a read of four and a rejected write of five, the data
length plus the number of dequeued bytes is 3 plus the number enqueued. -/
theorem occupancy_accounting_witness :
    ∃ s1, ring_buffer_run 64
        [.write (some (array_of [6, 7])) 2, .read (some (array_of [])) 4,
          .write (some (array_of [1, 2, 3, 4, 5])) 5]
        (some ⟨some (array_of [1, 2, 3, 4, 5]), 0, 2, 5, false⟩) = some s1 ∧
      data_length 64 s1 + (ring_buffer_dequeued 64
        [.write (some (array_of [6, 7])) 2, .read (some (array_of [])) 4,
          .write (some (array_of [1, 2, 3, 4, 5])) 5]
        (some ⟨some (array_of [1, 2, 3, 4, 5]), 0, 2, 5, false⟩)).length
        = data_length 64 ⟨some (array_of [1, 2, 3, 4, 5]), 0, 2, 5, false⟩ +
          (ring_buffer_enqueued 64
            [.write (some (array_of [6, 7])) 2, .read (some (array_of [])) 4,
              .write (some (array_of [1, 2, 3, 4, 5])) 5]
            (some ⟨some (array_of [1, 2, 3, 4, 5]), 0, 2, 5, false⟩)).length :=
  (occupancy_accounting 64 ⟨some (array_of [1, 2, 3, 4, 5]), 0, 2, 5, false⟩ (by decide)
    (by decide)).2.2.2.2.2.2.2 _ (by decide)

/-- C19 (empty and full are unambiguous).  On a well-formed state whose
capacity is a `size_t` value, `ring_buffer_is_empty` reports true if and only
if the data length is 0, and `ring_buffer_is_empty` and `ring_buffer_is_full`
never both report true. -/
theorem empty_full_unambiguous (w : Nat) (s : ring_buffer_t) (hwf : WellFormed s)
    (hl : s.length < 2 ^ w) :
    (ring_buffer_is_empty_inline s = true ↔ data_length w s = 0) ∧
    (∀ v n, ring_buffer_is_empty (some s) (some v) = (RING_BUFFER_OK, some true) ↔
      ring_buffer_get_data_length w (some s) (some n) = (RING_BUFFER_OK, some 0)) ∧
    ¬ (ring_buffer_is_empty_inline s = true ∧ ring_buffer_is_full_inline s = true) ∧
    (∀ v u, ¬ (ring_buffer_is_empty (some s) (some v) = (RING_BUFFER_OK, some true) ∧
      ring_buffer_is_full (some s) (some u) = (RING_BUFFER_OK, some true))) := by
  have hiff := empty_iff (w := w) hwf hl
  have hnot : ¬ (ring_buffer_is_empty_inline s = true ∧ ring_buffer_is_full_inline s = true) := by
    unfold ring_buffer_is_empty_inline ring_buffer_is_full_inline
    cases s.full <;> simp
  refine ⟨hiff, ?_, hnot, ?_⟩
  · intro v n
    simp only [ring_buffer_is_empty, ring_buffer_get_data_length, Prod.mk.injEq, true_and,
      Option.some.injEq]
    exact hiff
  · intro v u
    simp only [ring_buffer_is_empty, ring_buffer_is_full, Prod.mk.injEq, true_and,
      Option.some.injEq]
    exact hnot

/-- Witness of `empty_full_unambiguous`: capacity 5 with head == tail == 3 and
full clear, the empty state away from index 0. -/
theorem empty_full_unambiguous_witness :
    (ring_buffer_is_empty_inline ⟨some (array_of []), 3, 3, 5, false⟩ = true ↔
      data_length 64 ⟨some (array_of []), 3, 3, 5, false⟩ = 0) ∧
    ring_buffer_is_empty_inline ⟨some (array_of []), 3, 3, 5, false⟩ = true :=
  ⟨(empty_full_unambiguous 64 ⟨some (array_of []), 3, 3, 5, false⟩ (by decide) (by decide)).1,
    by decide⟩

/-- C20 (index arithmetic is exact in machine words).  With `size_t` taken
modulo `2 ^ w`, for a capacity in `[1, 2 ^ w - 1]` and head, tail below it:
when head < tail the computed `length + head - tail` is the mathematical
value, which lies in `[1, capacity - 1]`, also when `length + head` exceeds
`2 ^ w - 1`; and `head + 1` and `tail + 1` do not overflow, so the advanced
indices are `(head + 1) mod capacity` and `(tail + 1) mod capacity`. -/
theorem index_arithmetic_exact (w cap head tail : Nat) (buffer : byte_ptr) (fl : Bool)
    (h1 : 1 ≤ cap) (h2 : cap ≤ 2 ^ w - 1) (hh : head < cap) (ht : tail < cap) :
    (head < tail →
      size_sub w (size_add w cap head) tail = cap + head - tail ∧
      ring_buffer_calculate_available_data w ⟨buffer, head, tail, cap, false⟩
        = cap + head - tail ∧
      1 ≤ cap + head - tail ∧ cap + head - tail ≤ cap - 1) ∧
    (head + 1 < 2 ^ w ∧ size_add w head 1 = head + 1) ∧
    (tail + 1 < 2 ^ w ∧ size_add w tail 1 = tail + 1) ∧
    (advance_head_pointer w ⟨buffer, head, tail, cap, fl⟩).head = (head + 1) % cap ∧
    (fl = true → (advance_head_pointer w ⟨buffer, head, tail, cap, fl⟩).tail
      = (tail + 1) % cap) ∧
    (retreat_tail_pointer w ⟨buffer, head, tail, cap, fl⟩).tail = (tail + 1) % cap := by
  have hp := Nat.two_pow_pos w
  have hc : cap < 2 ^ w := by omega
  have ea : size_add w head 1 = head + 1 := size_add_of_lt (by omega)
  have eb : size_add w tail 1 = tail + 1 := size_add_of_lt (by omega)
  refine ⟨?_, ⟨by omega, ea⟩, ⟨by omega, eb⟩, ?_, ?_, ?_⟩
  · intro hlt
    have hw := size_sub_wrap ht hlt hc
    refine ⟨hw, ?_, by omega, by omega⟩
    have hnle : ¬ tail ≤ head := by omega
    simp only [ring_buffer_calculate_available_data, Bool.false_eq_true, if_false, ge_iff_le,
      hnle]
    exact hw
  · cases fl <;> simp [advance_head_pointer, ea]
  · intro hfl
    subst hfl
    simp [advance_head_pointer, eb]
  · simp [retreat_tail_pointer, eb]

/-- Witness of `index_arithmetic_exact`: a word of 3 bits, capacity 7, head 5,
tail 6; `length + head` is 12 and exceeds 7, and the computed data length is
still 6. -/
theorem index_arithmetic_exact_witness :
    2 ^ 3 - 1 < 7 + 5 ∧
    size_add 3 7 5 = 4 ∧
    size_sub 3 (size_add 3 7 5) 6 = 7 + 5 - 6 ∧
    ring_buffer_calculate_available_data 3 ⟨none, 5, 6, 7, false⟩ = 7 + 5 - 6 ∧
    1 ≤ 7 + 5 - 6 ∧ 7 + 5 - 6 ≤ 7 - 1 :=
  ⟨by decide, by decide,
    (index_arithmetic_exact 3 7 5 6 none false (by decide) (by decide) (by decide)
      (by decide)).1 (by decide)⟩

end RingBuffer
